import Mathlib

/-!
# Analog Segments Clock usermod

A shallow embedding of `usermods/Analog_Segments_Clock/Analog_Segments_Clock.cpp`.

* `int16_t` / `uint16_t` / `uint8_t` values are integers with explicit wrap-around
  (`toInt16`, `toUInt16`, `toUInt8`) at every place where the C++ code converts.
* The `double` progress values of `handleOverlayDraw` always hold integers, so they are
  integers here; the conversion `double → int16_t` is `toInt16`.
* The LED strip of the host is a pixel map together with the list of indices that were
  passed to `strip.getPixelColor` and `strip.setPixelColor`.
* `for` loops run on fuel: an `Outcome` is either `returned` or `running` (fuel used up,
  with the strip as it is at that moment).
-/

namespace AnalogSegmentsClock

/-! ## Machine integers -/

/-- Conversion to `int16_t`: two's complement wrap into `[-32768, 32767]`. -/
def toInt16 (x : Int) : Int := (x + 32768) % 65536 - 32768

/-- Conversion to `uint16_t`: wrap into `[0, 65535]`. -/
def toUInt16 (x : Int) : Int := x % 65536

/-- Conversion to `uint8_t`: wrap into `[0, 255]`. -/
def toUInt8 (x : Int) : Nat := (x % 256).toNat

/-- The value fits an `int16_t`. -/
def IsInt16 (x : Int) : Prop := -32768 ≤ x ∧ x ≤ 32767

instance (x : Int) : Decidable (IsInt16 x) := by
  unfold IsInt16; infer_instance

/-! ## Segment -/

/-- The `struct Segment`: three configured `int16_t` fields, the hours flag and the
derived `size`. -/
structure Segment where
  firstLed : Int
  lastLed : Int
  offset : Int
  isHours : Bool
  size : Int
deriving DecidableEq, Repr

namespace Segment

/-- Method `void update()`: `size = lastLed - firstLed + 1`, stored in an `int16_t`. -/
def update (s : Segment) : Segment :=
  { s with size := toInt16 (s.lastLed - s.firstLed + 1) }

/-- Constructor `Segment()`: the default member initialisers followed by `update()`; this is the
value that `*this = {}` assigns. -/
def default : Segment :=
  update { firstLed := 0, lastLed := 0, offset := 0, isHours := false, size := 0 }

/-- Method `void validateAndUpdate()`, with `stripLength` the value of
`strip.getLengthTotal()`. -/
def validateAndUpdate (stripLength : Nat) (s : Segment) : Segment :=
  if s.firstLed < 0 ∨ s.firstLed ≥ (stripLength : Int) ∨
      s.lastLed < s.firstLed ∨ s.lastLed ≥ (stripLength : Int) then
    Segment.default
  else
    let s1 := update s
    if s1.offset > s1.size then { s1 with offset := 0 } else s1

/-- All stored fields are `int16_t` values. -/
def InRange (s : Segment) : Prop :=
  IsInt16 s.firstLed ∧ IsInt16 s.lastLed ∧ IsInt16 s.offset ∧ IsInt16 s.size

instance (s : Segment) : Decidable (InRange s) := by
  unfold InRange; infer_instance

/-- The LED index `n` lies in the segment `[firstLed, lastLed]`. -/
def Covers (s : Segment) (n : Int) : Prop := s.firstLed ≤ n ∧ n ≤ s.lastLed

instance (s : Segment) (n : Int) : Decidable (Covers s n) := by
  unfold Covers; infer_instance

/-- Two segments share no LED index. -/
def Disjoint (s t : Segment) : Prop := s.lastLed < t.firstLed ∨ t.lastLed < s.firstLed

instance (s t : Segment) : Decidable (Disjoint s t) := by
  unfold Disjoint; infer_instance

end Segment

/-! ## Index mapping -/

/-- Function `int16_t adjustToSegment(double progress, Segment const &segment)`.
`progress` holds an integer at every call site. -/
def adjustToSegment (progress : Int) (segment : Segment) : Int :=
  let led := toInt16 (segment.firstLed + segment.offset + progress - 1)
  if led > segment.lastLed then
    toInt16 (led - segment.lastLed - 1 + segment.firstLed)
  else
    led

/-- Function `static inline int16_t dec(int16_t n, int16_t i, Segment const &seg)`. -/
def dec (n i : Int) (seg : Segment) : Int :=
  if n - seg.firstLed ≥ i then
    toInt16 (n - i)
  else
    toInt16 (seg.lastLed - seg.firstLed - i + n + 1)

/-- Function `static inline int16_t inc(int16_t n, int16_t i, Segment const &seg)`. -/
def inc (n i : Int) (seg : Segment) : Int :=
  let r := toInt16 (n + i)
  if r > seg.lastLed then
    toInt16 (seg.firstLed + n - seg.lastLed)
  else
    r

/-! ## Colours -/

/-- Modelled from the spec: the host macro `R(c)`, the red channel (bits 16..23) of a
32-bit RGBW colour; the macro is not part of this source file. -/
def R (c : Nat) : Nat := (c / 65536) % 256

/-- Modelled from the spec: the host macro `G(c)`, the green channel (bits 8..15). -/
def G (c : Nat) : Nat := (c / 256) % 256

/-- Modelled from the spec: the host macro `B(c)`, the blue channel (bits 0..7). -/
def B (c : Nat) : Nat := c % 256

/-- Modelled from the spec: the host macro `W(c)`, the white channel (bits 24..31). -/
def W (c : Nat) : Nat := (c / 16777216) % 256

/-- Modelled from the spec: the host macro `RGBW32(r, g, b, w)`, which packs four bytes
into one 32-bit colour. -/
def RGBW32 (r g b w : Nat) : Nat :=
  (w % 256) * 16777216 + (r % 256) * 65536 + (g % 256) * 256 + b % 256

/-- Modelled from the spec: the library function `qadd8`, the saturating sum
`min(255, existing + new)` of two channel values. -/
def qadd8 (i j : Nat) : Nat := min 255 (i + j)

/-- Function `static inline uint32_t qadd32(uint32_t c1, uint32_t c2)`. -/
def qadd32 (c1 c2 : Nat) : Nat :=
  RGBW32 (qadd8 (R c1) (R c2)) (qadd8 (G c1) (G c2)) (qadd8 (B c1) (B c2))
    (qadd8 (W c1) (W c2))

/-- Functions of the host firmware that the fade effect calls and that are not part of
this source file: `cos8_t`, `sin8_t`, `scale8` and `gamma32`. -/
structure Host where
  cos8_t : Nat → Nat
  sin8_t : Nat → Nat
  scale8 : Nat → Nat → Nat
  gamma32 : Nat → Nat

/-- Function `static inline uint32_t scale32(uint32_t c, fract8 scale)`. -/
def scale32 (host : Host) (c scale : Nat) : Nat :=
  RGBW32 (host.scale8 (R c) scale) (host.scale8 (G c) scale) (host.scale8 (B c) scale)
    (host.scale8 (W c) scale)

/-! ## The strip -/

/-- Modelled from the spec: the host `PixelBuffer` (`strip`), a colour for every index,
extended with the indices handed to `getPixelColor` (`reads`) and `setPixelColor`
(`writes`), most recent first. -/
structure Strip where
  pixels : Int → Nat
  reads : List Int
  writes : List Int

namespace Strip

/-- A strip whose pixels are all black and that has not been accessed. -/
def black : Strip := { pixels := fun _ => 0, reads := [], writes := [] }

/-- Modelled from the spec: `strip.getPixelColor(n)`. -/
def getPixelColor (st : Strip) (n : Int) : Nat × Strip :=
  (st.pixels n, { st with reads := n :: st.reads })

/-- Modelled from the spec: `strip.setPixelColor(n, c)`. -/
def setPixelColor (st : Strip) (n : Int) (c : Nat) : Strip :=
  { st with pixels := fun k => if k = n then c else st.pixels k, writes := n :: st.writes }

end Strip

/-- The state of a call: it has returned, or it is still running when the fuel is used
up (in both cases with the strip as it is at that moment). -/
inductive Outcome where
  | returned (st : Strip)
  | running (st : Strip)

namespace Outcome

/-- The strip carried by an outcome. -/
def strip : Outcome → Strip
  | returned st => st
  | running st => st

/-- Whether the call has returned. -/
def finished : Outcome → Bool
  | returned _ => true
  | running _ => false

/-- Sequencing: continue with `f` once the first part has returned. -/
def andThen (o : Outcome) (f : Strip → Outcome) : Outcome :=
  match o with
  | returned st => f st
  | running st => running st

end Outcome

/-! ## Drawing -/

/-- Function `void setPixelColor(uint16_t n, uint32_t c)`; the caller converts its index to
`uint16_t`. -/
def setPixelColor (blendColors : Bool) (n : Int) (c : Nat) (st : Strip) : Strip :=
  if !blendColors then
    st.setPixelColor n c
  else
    let (oldC, st1) := st.getPixelColor n
    st1.setPixelColor n (qadd32 oldC c)

/-- The loop `for (int16_t i = ...; i <= bound; ++i) setPixelColor(i, c);` from the
current value `i` of the counter. -/
def forSetPixelColor (blendColors : Bool) (c : Nat) (bound : Int) :
    Nat → Int → Strip → Outcome
  | 0, _, st => Outcome.running st
  | fuel + 1, i, st =>
    if i ≤ bound then
      forSetPixelColor blendColors c bound fuel (toInt16 (i + 1))
        (setPixelColor blendColors (toUInt16 i) c st)
    else
      Outcome.returned st

/-- Function `void setPixelColorCumulative(uint16_t n, uint32_t c, Segment const &segment)`. -/
def setPixelColorCumulative (blendColors : Bool) (fuel : Nat) (n : Int) (c : Nat)
    (segment : Segment) (st : Strip) : Outcome :=
  if n ≥ segment.firstLed + segment.offset then
    forSetPixelColor blendColors c n fuel (toInt16 (segment.firstLed + segment.offset)) st
  else
    (forSetPixelColor blendColors c segment.lastLed fuel
        (toInt16 (segment.firstLed + segment.offset)) st).andThen
      fun st1 => forSetPixelColor blendColors c n fuel (toInt16 segment.firstLed) st1

/-- Function `void movingEffectSineFade(int16_t led, Toki::Time const &time,
Segment const &segment, uint32_t c)`, with `timeMs` the field `time.ms`. -/
def movingEffectSineFade (host : Host) (blendColors : Bool) (led : Int) (timeMs : Nat)
    (segment : Segment) (c : Nat) (st : Strip) : Strip :=
  let ms := timeMs % 1000
  let b0 := toUInt8 (((host.cos8_t (ms * 64 / 1000) : Int) - 128) * 2)
  let st1 := setPixelColor blendColors (toUInt16 led) (host.gamma32 (scale32 host c b0)) st
  let b1 := toUInt8 (((host.sin8_t (ms * 64 / 1000) : Int) - 128) * 2)
  if segment.isHours ∨ segment.lastLed + segment.offset ≠ led then
    setPixelColor blendColors (toUInt16 (inc led 1 segment))
      (host.gamma32 (scale32 host c b1)) st1
  else
    st1

/-- Function `void movingEffectSineFadeCumulative(int16_t led, Toki::Time const &time,
Segment const &segment, uint32_t c)`. -/
def movingEffectSineFadeCumulative (host : Host) (blendColors : Bool) (fuel : Nat)
    (led : Int) (timeMs : Nat) (segment : Segment) (c : Nat) (st : Strip) : Outcome :=
  let bar :=
    if led ≥ segment.firstLed + segment.offset then
      forSetPixelColor blendColors c (led - 1) fuel
        (toInt16 (segment.firstLed + segment.offset)) st
    else
      (forSetPixelColor blendColors c segment.lastLed fuel
          (toInt16 (segment.firstLed + segment.offset)) st).andThen
        fun st1 => forSetPixelColor blendColors c (led - 1) fuel (toInt16 segment.firstLed) st1
  bar.andThen fun st2 =>
    let ms := timeMs % 1000
    let b1 := toUInt8 (((host.sin8_t (ms * 64 / 1000) : Int) - 128) * 2)
    Outcome.returned
      (setPixelColor blendColors (toUInt16 led) (host.gamma32 (scale32 host c b1)) st2)

/-! ## Colour strings -/

/-- The C library test `isspace` in the "C" locale: the space and the control characters
9 to 13 (tab, line feed, vertical tab, form feed, carriage return). -/
def isSpaceC (ch : Char) : Bool := ch.toNat = 32 || (9 ≤ ch.toNat && ch.toNat ≤ 13)

/-- The value of a hexadecimal digit `0..9`, `A..F`, `a..f`; `none` for every other
character. -/
def hexDigitValue (ch : Char) : Option Nat :=
  if 48 ≤ ch.toNat ∧ ch.toNat ≤ 57 then some (ch.toNat - 48)
  else if 65 ≤ ch.toNat ∧ ch.toNat ≤ 70 then some (ch.toNat - 55)
  else if 97 ≤ ch.toNat ∧ ch.toNat ≤ 102 then some (ch.toNat - 87)
  else none

/-- The character is a hexadecimal digit. -/
def isHexDigit (ch : Char) : Bool := (hexDigitValue ch).isSome

/-- The digit loop of `strtoull`: reads hexadecimal digits into the accumulator and stops
at the first other character; returns the value and the unread rest. -/
def scanHex : List Char → Nat → Nat × List Char
  | [], acc => (acc, [])
  | ch :: rest, acc =>
    match hexDigitValue ch with
    | some d => scanHex rest (acc * 16 + d)
    | none => (acc, ch :: rest)

/-- The largest `unsigned long long`, `ULLONG_MAX`. -/
def ullongMax : Nat := 18446744073709551615

/-- The optional sign of the subject sequence: a leading `-` or `+` is skipped. -/
def skipSign (t : List Char) : List Char :=
  match t with
  | ch :: r => if ch = '-' ∨ ch = '+' then r else t
  | [] => t

/-- Whether the subject sequence starts with a minus sign. -/
def hasMinus (t : List Char) : Bool :=
  match t with
  | ch :: _ => ch = '-'
  | [] => false

/-- The optional prefix for base 16: `0x` or `0X` is skipped when a hexadecimal digit
follows it. -/
def skipHexPrefix (u : List Char) : List Char :=
  match u with
  | z :: x :: d :: r =>
    if z = '0' ∧ (x = 'x' ∨ x = 'X') ∧ isHexDigit d = true then d :: r else u
  | _ => u

/-- The C library call `strtoull(nptr, &ep, 16)` (the function is not part of this source
file; this follows the C standard): skip white space, read an optional sign and an
optional `0x` or `0X` that is followed by a digit, then the longest run of hexadecimal
digits. The result is the value and the unread rest `ep`. Without any digit nothing is
converted: the value is 0 and `ep` is `nptr`. A value above `ULLONG_MAX` gives
`ULLONG_MAX`; a minus sign negates the value as an `unsigned long long`. -/
def strtoull16 (nptr : List Char) : Nat × List Char :=
  let t := nptr.dropWhile isSpaceC
  let w := skipHexPrefix (skipSign t)
  match w with
  | [] => (0, nptr)
  | d :: _ =>
    if isHexDigit d = true then
      ((if (scanHex w 0).1 > ullongMax then ullongMax
        else if hasMinus t then (ullongMax + 1 - (scanHex w 0).1) % (ullongMax + 1)
        else (scanHex w 0).1),
       (scanHex w 0).2)
    else (0, nptr)

/-- The upper-case hexadecimal digit character for a value below 16. -/
def upperHexChar (d : Nat) : Char := Char.ofNat (if d < 10 then 48 + d else 55 + d)

/-- The conversion `%X` of the C library (not part of this source file; this follows the
C standard): the upper-case hexadecimal digits of `n`, most significant first, put in
front of `ds`. The fuel bounds the number of digits; a 32-bit argument has at most 8. -/
def upperHexDigits : Nat → Nat → List Char → List Char
  | 0, _, ds => ds
  | fuel + 1, n, ds =>
    if n / 16 = 0 then upperHexChar (n % 16) :: ds
    else upperHexDigits fuel (n / 16) (upperHexChar (n % 16) :: ds)

/-- The C library call `sprintf(buffer, "%06X", c)` for a 32-bit `c`: the digits of `%X`,
padded on the left with `0` to at least six characters. -/
def sprintf06X (c : Nat) : List Char :=
  List.replicate (6 - (upperHexDigits 8 c []).length) '0' ++ upperHexDigits 8 c []

/-- Function `String colorToHexString(uint32_t c)`. -/
def colorToHexString (c : Nat) : String := String.mk (sprintf06X c)

/-- The characters that `s.c_str()` shows to a C function: those before the first NUL. -/
def cStr (s : String) : List Char := s.toList.takeWhile (fun ch => ch.toNat ≠ 0)

/-- Function `bool hexStringToColor(String const &s, uint32_t &c, uint32_t def)`: the
returned flag and the value stored in `c` (the conversion of `r` to `uint32_t` keeps the
low 32 bits). The test `*ep == 0` holds when nothing is left unread. -/
def hexStringToColor (s : String) (deflt : Nat) : Bool × Nat :=
  let r := (strtoull16 (cStr s)).1
  let ep := (strtoull16 (cStr s)).2
  if ep = [] then (true, r % 4294967296) else (false, deflt)

/-! ## The usermod -/

/-- The configuration fields of `Analog_Segments_ClockUsermod`. -/
structure Usermod where
  enabled : Bool
  hourColor : Nat
  minuteUnitColor : Nat
  minuteTensColor : Nat
  secondUnitColor : Nat
  secondTensColor : Nat
  blendColors : Bool
  movingEffect : Nat
  markingMode : Nat
  seconds9_Segment : Segment
  seconds5_Segment : Segment
  minutes9_Segment : Segment
  minutes5_Segment : Segment
  hours12_Segment : Segment

/-- The usermod-level `void validateAndUpdate()`. -/
def validateAndUpdate (stripLength : Nat) (um : Usermod) : Usermod :=
  { um with
    seconds9_Segment := um.seconds9_Segment.validateAndUpdate stripLength
    seconds5_Segment := um.seconds5_Segment.validateAndUpdate stripLength
    minutes9_Segment := um.minutes9_Segment.validateAndUpdate stripLength
    minutes5_Segment := um.minutes5_Segment.validateAndUpdate stripLength
    hours12_Segment :=
      { um.hours12_Segment.validateAndUpdate stripLength with isHours := true }
    movingEffect := if um.movingEffect > 1 then 0 else um.movingEffect
    markingMode := if um.markingMode > 1 then 0 else um.markingMode }

/-- What `handleOverlayDraw` reads from the clocks of the host: `second(localTime)`,
`minute(localTime)`, `hour(localTime)` and `toki.getTime().ms`. -/
structure Now where
  seconds : Int
  minutes : Int
  hours : Int
  ms : Nat

/-- A time of day: hours `0..23`, minutes and seconds `0..59`. -/
def Now.Valid (t : Now) : Prop :=
  0 ≤ t.seconds ∧ t.seconds ≤ 59 ∧ 0 ≤ t.minutes ∧ t.minutes ≤ 59 ∧ 0 ≤ t.hours ∧ t.hours ≤ 23

instance (t : Now) : Decidable t.Valid := by
  unfold Now.Valid; infer_instance

/-- The tens progress `(x - (x % 10)) / 10` of a seconds or minutes value. -/
def tensP (x : Int) : Int := Int.tdiv (x - Int.tmod x 10) 10

/-- The units progress `x % 10` of a seconds or minutes value. -/
def unitsP (x : Int) : Int := Int.tmod x 10

/-- The hours progress `hours > 12 ? hours - 12 : (hours % 12)`. -/
def hours12P (hours : Int) : Int := if hours > 12 then hours - 12 else Int.tmod hours 12

/-- Function `void handleOverlayDraw()`. The bookkeeping assignment `lastOverlayDraw = millis()`
does not touch the strip and is left out. -/
def handleOverlayDraw (host : Host) (um : Usermod) (t : Now) (fuel : Nat) (st : Strip) :
    Outcome :=
  if !um.enabled then Outcome.returned st
  else
    let seconds5P := tensP t.seconds
    let seconds9P := unitsP t.seconds
    let minutes5P := tensP t.minutes
    let minutes9P := unitsP t.minutes
    let hours12P := hours12P t.hours
    let blend := um.blendColors
    match um.markingMode with
    | 0 =>
      let secondLed9 := adjustToSegment seconds9P um.seconds9_Segment
      let st1 :=
        if seconds9P > 0 then
          if um.movingEffect = 0 then
            setPixelColor blend (toUInt16 secondLed9) um.secondUnitColor st
          else movingEffectSineFade host blend secondLed9 t.ms um.seconds9_Segment
            um.secondUnitColor st
        else st
      let secondLed5 := adjustToSegment seconds5P um.seconds5_Segment
      let st2 :=
        if seconds5P > 0 then
          if um.movingEffect = 0 then
            setPixelColor blend (toUInt16 secondLed5) um.secondTensColor st1
          else movingEffectSineFade host blend secondLed5 t.ms um.seconds5_Segment
            um.secondTensColor st1
        else st1
      let minuteLed9 := adjustToSegment minutes9P um.minutes9_Segment
      let st3 :=
        if minutes9P > 0 then
          if um.movingEffect = 0 then
            setPixelColor blend (toUInt16 secondLed5) um.minuteUnitColor st2
          else movingEffectSineFade host blend minuteLed9 t.ms um.minutes9_Segment
            um.minuteUnitColor st2
        else st2
      let minuteLed5 := adjustToSegment minutes5P um.minutes5_Segment
      let st4 :=
        if minutes5P > 0 then
          if um.movingEffect = 0 then
            setPixelColor blend (toUInt16 minuteLed5) um.minuteTensColor st3
          else movingEffectSineFade host blend minuteLed5 t.ms um.minutes5_Segment
            um.minuteTensColor st3
        else st3
      let hourLed12 := adjustToSegment hours12P um.hours12_Segment
      Outcome.returned
        (if um.movingEffect = 0 then
          setPixelColor blend (toUInt16 hourLed12) um.hourColor st4
        else movingEffectSineFade host blend hourLed12 t.ms um.hours12_Segment
          um.hourColor st4)
    | 1 =>
      let secondLed9 := adjustToSegment seconds9P um.seconds9_Segment
      let o1 :=
        if seconds9P > 0 then
          if um.movingEffect = 0 then
            setPixelColorCumulative blend fuel (toUInt16 secondLed9) um.secondUnitColor
              um.seconds9_Segment st
          else movingEffectSineFadeCumulative host blend fuel secondLed9 t.ms
            um.seconds9_Segment um.secondUnitColor st
        else Outcome.returned st
      o1.andThen fun st1 =>
      let secondLed5 := adjustToSegment seconds5P um.seconds5_Segment
      let o2 :=
        if seconds5P > 0 then
          if um.movingEffect = 0 then
            setPixelColorCumulative blend fuel (toUInt16 secondLed5) um.secondTensColor
              um.seconds5_Segment st1
          else movingEffectSineFadeCumulative host blend fuel secondLed5 t.ms
            um.seconds5_Segment um.secondTensColor st1
        else Outcome.returned st1
      o2.andThen fun st2 =>
      let minuteLed9 := adjustToSegment minutes9P um.minutes9_Segment
      let o3 :=
        if minutes9P > 0 then
          if um.movingEffect = 0 then
            setPixelColorCumulative blend fuel (toUInt16 minuteLed9) um.minuteUnitColor
              um.minutes9_Segment st2
          else movingEffectSineFadeCumulative host blend fuel minuteLed9 t.ms
            um.minutes9_Segment um.minuteUnitColor st2
        else Outcome.returned st2
      o3.andThen fun st3 =>
      let minuteLed5 := adjustToSegment minutes5P um.minutes5_Segment
      let o4 :=
        if minutes5P > 0 then
          if um.movingEffect = 0 then
            setPixelColorCumulative blend fuel (toUInt16 minuteLed5) um.minuteTensColor
              um.minutes5_Segment st3
          else movingEffectSineFadeCumulative host blend fuel minuteLed5 t.ms
            um.minutes5_Segment um.minuteTensColor st3
        else Outcome.returned st3
      o4.andThen fun st4 =>
      let hourLed12 := adjustToSegment hours12P um.hours12_Segment
      if um.movingEffect = 0 then
        setPixelColorCumulative blend fuel (toUInt16 hourLed12) um.hourColor
          um.hours12_Segment st4
      else movingEffectSineFadeCumulative host blend fuel hourLed12 t.ms
        um.hours12_Segment um.hourColor st4
    | _ => Outcome.returned st

/-! ## Predicates used by the statements -/

/-- The five segments share no LED. -/
def Usermod.PairwiseDisjoint (um : Usermod) : Prop :=
  um.seconds9_Segment.Disjoint um.seconds5_Segment ∧
  um.seconds9_Segment.Disjoint um.minutes9_Segment ∧
  um.seconds9_Segment.Disjoint um.minutes5_Segment ∧
  um.seconds9_Segment.Disjoint um.hours12_Segment ∧
  um.seconds5_Segment.Disjoint um.minutes9_Segment ∧
  um.seconds5_Segment.Disjoint um.minutes5_Segment ∧
  um.seconds5_Segment.Disjoint um.hours12_Segment ∧
  um.minutes9_Segment.Disjoint um.minutes5_Segment ∧
  um.minutes9_Segment.Disjoint um.hours12_Segment ∧
  um.minutes5_Segment.Disjoint um.hours12_Segment

instance (um : Usermod) : Decidable um.PairwiseDisjoint := by
  unfold Usermod.PairwiseDisjoint; infer_instance

/-- The numeric value of a list of hexadecimal digits. -/
def hexValue (l : List Char) : Nat :=
  l.foldl (fun acc ch => acc * 16 + (hexDigitValue ch).getD 0) 0

/-- The character is an upper-case hexadecimal digit, `0..9` or `A..F`. -/
def isUpperHexDigit (ch : Char) : Bool :=
  (48 ≤ ch.toNat && ch.toNat ≤ 57) || (65 ≤ ch.toNat && ch.toNat ≤ 70)

/-- The string is a non-empty sequence of hexadecimal digits. -/
def IsHexString (s : String) : Prop := s.toList ≠ [] ∧ ∀ ch ∈ s.toList, isHexDigit ch = true

instance (s : String) : Decidable (IsHexString s) := by
  unfold IsHexString; infer_instance

/-- The form that `strtoull` reads completely in base 16: white space, an optional sign,
an optional `0x` or `0X`, and at least one hexadecimal digit. -/
def StrtoullForm (l : List Char) : Prop :=
  ∃ sp sg px dg : List Char, l = sp ++ (sg ++ (px ++ dg)) ∧
    (∀ ch ∈ sp, isSpaceC ch = true) ∧ (sg = [] ∨ sg = ['+'] ∨ sg = ['-']) ∧
    (px = [] ∨ px = ['0', 'x'] ∨ px = ['0', 'X']) ∧ dg ≠ [] ∧
    ∀ ch ∈ dg, isHexDigit ch = true

/-- The shape that `validateAndUpdate` against a strip of `L` LEDs leaves: `0 <= firstLed <=
lastLed`, `lastLed < L` when the strip has an LED at all, and `offset <= lastLed - firstLed
+ 1` when `lastLed < 32767`. -/
def Segment.Shaped (L : Nat) (s : Segment) : Prop :=
  0 ≤ s.firstLed ∧ s.firstLed ≤ s.lastLed ∧ (1 ≤ L → s.lastLed < (L : Int)) ∧
  (s.lastLed < 32767 → s.offset ≤ s.lastLed - s.firstLed + 1)

/-- The LED indices of the segment, `firstLed, ..., lastLed`. -/
def Segment.leds (s : Segment) : List Int :=
  (List.range (s.lastLed + 1 - s.firstLed).toNat).map fun (i : Nat) => s.firstLed + Int.ofNat i

/-- The five configured segments hold `int16_t` values. -/
def Usermod.InRange (um : Usermod) : Prop :=
  um.seconds9_Segment.InRange ∧ um.seconds5_Segment.InRange ∧ um.minutes9_Segment.InRange ∧
  um.minutes5_Segment.InRange ∧ um.hours12_Segment.InRange

instance (um : Usermod) : Decidable um.InRange := by
  unfold Usermod.InRange; infer_instance

/-- The draws of the frame at time `t`, in the order of `handleOverlayDraw`: the segment and
the LED index that each call of a drawing strategy receives. A digit other than the hours
digit is drawn when its progress is above 0, the hours digit always. The LED index is
`adjustToSegment(progress, segment)` of the digit, except that the single/solid draw of the
minutes-units digit is `setPixelColor(secondLed5, ...)`, the LED of the seconds-tens digit.
A disabled usermod and a marking mode other than 0 and 1 draw nothing. -/
def Usermod.draws (um : Usermod) (t : Now) : List (Segment × Int) :=
  if um.enabled = true ∧ um.markingMode ≤ 1 then
    (if unitsP t.seconds > 0 then
        [(um.seconds9_Segment, adjustToSegment (unitsP t.seconds) um.seconds9_Segment)]
      else []) ++
    (if tensP t.seconds > 0 then
        [(um.seconds5_Segment, adjustToSegment (tensP t.seconds) um.seconds5_Segment)]
      else []) ++
    (if unitsP t.minutes > 0 then
        [if um.markingMode = 0 ∧ um.movingEffect = 0 then
          (um.seconds5_Segment, adjustToSegment (tensP t.seconds) um.seconds5_Segment)
        else (um.minutes9_Segment, adjustToSegment (unitsP t.minutes) um.minutes9_Segment)]
      else []) ++
    (if tensP t.minutes > 0 then
        [(um.minutes5_Segment, adjustToSegment (tensP t.minutes) um.minutes5_Segment)]
      else []) ++
    [(um.hours12_Segment, adjustToSegment (hours12P t.hours) um.hours12_Segment)]
  else []

/-- The index `x` is handed to the strip by the loop
`for (int16_t i = lo; i <= hi; ++i) setPixelColor(i, c)`: it is the `uint16_t` value of
an `i` in `[lo, hi]`, which is `i` itself or, for a negative `i`, `i + 65536`. -/
def loopHits (lo hi x : Int) : Prop :=
  (lo ≤ x ∧ x ≤ hi ∧ 0 ≤ x) ∨ (lo + 65536 ≤ x ∧ x ≤ hi + 65536 ∧ x ≤ 65535)

instance (lo hi x : Int) : Decidable (loopHits lo hi x) := by
  unfold loopHits; infer_instance

/-- The pixel index `x` is hit by the draw of `led` on `seg`, in the marking mode and
moving effect of the usermod. Single/solid (`setPixelColor`): `led`. Single/fade
(`movingEffectSineFade`): `led`, and `inc(led, 1, seg)` unless the segment is not the hours
segment and `led` is `lastLed + offset`. Cumulative/solid (`setPixelColorCumulative`, which
receives `led` as the `uint16_t` value `n`): the loop from `firstLed + offset` to `n` when
`firstLed + offset <= n`, else the loops from `firstLed + offset` to `lastLed` and from
`firstLed` to `n`. Cumulative/fade (`movingEffectSineFadeCumulative`): the same loops with
`led` in the test and `led - 1` as the upper bound, followed by `led` itself. -/
def Usermod.DrawHits (um : Usermod) (seg : Segment) (led : Int) (x : Int) : Prop :=
  if um.markingMode = 0 then
    x = toUInt16 led ∨
    (um.movingEffect ≠ 0 ∧ (seg.isHours = true ∨ seg.lastLed + seg.offset ≠ led) ∧
      x = toUInt16 (inc led 1 seg))
  else if um.movingEffect = 0 then
    if seg.firstLed + seg.offset ≤ toUInt16 led then
      loopHits (seg.firstLed + seg.offset) (toUInt16 led) x
    else
      loopHits (seg.firstLed + seg.offset) seg.lastLed x ∨
      loopHits seg.firstLed (toUInt16 led) x
  else
    x = toUInt16 led ∨
    (if seg.firstLed + seg.offset ≤ led then
      loopHits (seg.firstLed + seg.offset) (led - 1) x
    else
      loopHits (seg.firstLed + seg.offset) seg.lastLed x ∨
      loopHits seg.firstLed (led - 1) x)

instance (um : Usermod) (seg : Segment) (led x : Int) : Decidable (um.DrawHits seg led x) := by
  unfold Usermod.DrawHits; infer_instance

/-- The pixel index `x` is hit by a draw of the frame at time `t`. -/
def Usermod.FrameHits (um : Usermod) (t : Now) (x : Int) : Prop :=
  ∃ d ∈ um.draws t, um.DrawHits d.1 d.2 x

instance (um : Usermod) (t : Now) (x : Int) : Decidable (um.FrameHits t x) := by
  unfold Usermod.FrameHits; infer_instance

/-- The loops of the draw of `led` on `seg` end: in cumulative mode `lastLed < 32767`, and
in cumulative/solid mode, where `led` is converted to `uint16_t` and bounds a loop,
`0 <= led < 32767`. The single modes run no loop. -/
def Usermod.DrawEnds (um : Usermod) (seg : Segment) (led : Int) : Prop :=
  um.markingMode = 1 →
    seg.lastLed < 32767 ∧ (um.movingEffect = 0 → 0 ≤ led ∧ led < 32767)

instance (um : Usermod) (seg : Segment) (led : Int) : Decidable (um.DrawEnds seg led) := by
  unfold Usermod.DrawEnds; infer_instance

/-- The draw of `led` on `seg` can stay inside a strip of `L` LEDs: `0 <= led < L`; in
single/fade mode, which computes `led + 1`, and in cumulative/solid mode, where `led`
bounds a loop, `led < 32767`; and in cumulative mode, where the loops start at
`firstLed + offset` and run up to `lastLed`, `lastLed < 32767` and
`0 <= firstLed + offset`. -/
def Usermod.DrawInStrip (um : Usermod) (L : Nat) (seg : Segment) (led : Int) : Prop :=
  0 ≤ led ∧ led < (L : Int) ∧
  ((um.markingMode = 0 ∧ um.movingEffect ≠ 0) ∨ (um.markingMode = 1 ∧ um.movingEffect = 0) →
    led < 32767) ∧
  (um.markingMode = 1 → seg.lastLed < 32767 ∧ 0 ≤ seg.firstLed + seg.offset)

instance (um : Usermod) (L : Nat) (seg : Segment) (led : Int) :
    Decidable (um.DrawInStrip L seg led) := by
  unfold Usermod.DrawInStrip; infer_instance

/-- What the loops of a cumulative draw need in order to end with every counter an
`int16_t` value. -/
def Usermod.DrawGuard (um : Usermod) (seg : Segment) (led : Int) : Prop :=
  um.markingMode = 1 →
    seg.lastLed < 32767 ∧ -32768 ≤ seg.firstLed + seg.offset ∧
    seg.firstLed + seg.offset ≤ 32767 ∧ 0 ≤ seg.firstLed ∧ seg.firstLed ≤ 32767 ∧
    IsInt16 led ∧ (um.movingEffect = 0 → 0 ≤ led ∧ led < 32767)

/-- The strip `st'` arises from `st` by the draws `ds`: the new writes are exactly the
indices that these draws hit, and with blending on every write is preceded by a read of
the same index. -/
def Strip.DrawnBy (um : Usermod) (ds : List (Segment × Int)) (st st' : Strip) : Prop :=
  ∃ ws : List Int, st'.writes = ws ++ st.writes ∧
    st'.reads = (if um.blendColors then ws else []) ++ st.reads ∧
    ∀ k, k ∈ ws ↔ ∃ d ∈ ds, um.DrawHits d.1 d.2 k

/-- The call has returned, and its strip arises from `st` as in `Strip.DrawnBy`. -/
def Outcome.ReturnsDrawn (um : Usermod) (ds : List (Segment × Int)) (st : Strip)
    (o : Outcome) : Prop :=
  ∃ st' : Strip, o = Outcome.returned st' ∧ Strip.DrawnBy um ds st st'

/-! ## Fixtures -/

/-- A segment `[firstLed, lastLed]` with the given offset, as `validateAndUpdate` leaves
it when the bounds are accepted (non-hours). -/
def mkSegment (firstLed lastLed offset : Int) : Segment :=
  Segment.update
    { firstLed := firstLed, lastLed := lastLed, offset := offset, isHours := false, size := 0 }

/-- An enabled configuration with the default colours, blending off, and the given modes
and segments. -/
def mkUsermod (markingMode movingEffect : Nat) (s9 s5 m9 m5 h12 : Segment) : Usermod :=
  { enabled := true
    hourColor := 0x0000FF
    minuteUnitColor := 0x00FF00
    minuteTensColor := 0x00FF00
    secondUnitColor := 0xFF0000
    secondTensColor := 0xFF0000
    blendColors := false
    movingEffect := movingEffect
    markingMode := markingMode
    seconds9_Segment := s9
    seconds5_Segment := s5
    minutes9_Segment := m9
    minutes5_Segment := m5
    hours12_Segment := h12 }

/-- The configuration that `readFromConfig` falls back to: segments `0..8`, `9..13`,
`14..22`, `23..27`, `28..39` with offsets 0. -/
def defaultConfig (markingMode movingEffect : Nat) : Usermod :=
  mkUsermod markingMode movingEffect (mkSegment 0 8 0) (mkSegment 9 13 0)
    (mkSegment 14 22 0) (mkSegment 23 27 0) (mkSegment 28 39 0)

/-- The default configuration after `validateAndUpdate` against a strip of 40 LEDs. -/
def defaultUsermod (markingMode movingEffect : Nat) : Usermod :=
  validateAndUpdate 40 (defaultConfig markingMode movingEffect)

/-- The default configuration with the seconds segments changed to `0..3` (units, four
LEDs) and `4..8` (tens). -/
def shortSecondsConfig : Usermod :=
  mkUsermod 0 0 (mkSegment 0 3 0) (mkSegment 4 8 0) (mkSegment 14 22 0)
    (mkSegment 23 27 0) (mkSegment 28 39 0)

/-- The default configuration with the hours segment changed to `38..39` (two LEDs). -/
def shortHoursConfig : Usermod :=
  mkUsermod 0 0 (mkSegment 0 8 0) (mkSegment 9 13 0) (mkSegment 14 22 0)
    (mkSegment 23 27 0) (mkSegment 38 39 0)

/-- The default configuration with the seconds-units segment configured as `-1..8`, which
`validateAndUpdate` resets to the segment `0..0`. -/
def resetSecondsConfig (markingMode movingEffect : Nat) : Usermod :=
  mkUsermod markingMode movingEffect (mkSegment (-1) 8 0) (mkSegment 9 13 0)
    (mkSegment 14 22 0) (mkSegment 23 27 0) (mkSegment 28 39 0)

/-- A host whose fade functions return 0 (the solid effect calls none of them). -/
def nullHost : Host :=
  { cos8_t := fun _ => 0, sin8_t := fun _ => 0, scale8 := fun _ _ => 0, gamma32 := fun _ => 0 }

end AnalogSegmentsClock

/-! # Theorems -/

namespace AnalogSegmentsClock

/-! ## Arithmetic helpers -/

theorem tensP_eq (x : Int) (h : 0 ≤ x) : tensP x = x / 10 := by
  unfold tensP
  rw [Int.tmod_eq_emod h (by norm_num), Int.tdiv_eq_ediv (by omega) (by norm_num)]
  omega

theorem unitsP_eq (x : Int) (h : 0 ≤ x) : unitsP x = x % 10 := by
  unfold unitsP
  rw [Int.tmod_eq_emod h (by norm_num)]

theorem hours12P_eq (h : Int) (h0 : 0 ≤ h) (h1 : h ≤ 23) : hours12P h = h % 12 := by
  unfold hours12P
  rw [Int.tmod_eq_emod h0 (by norm_num)]
  split <;> omega

theorem toInt16_of_fits (x : Int) (h0 : -32768 ≤ x) (h1 : x ≤ 32767) : toInt16 x = x := by
  unfold toInt16; omega

theorem toUInt16_of_fits (x : Int) (h0 : 0 ≤ x) (h1 : x ≤ 65535) : toUInt16 x = x := by
  unfold toUInt16; omega

theorem toInt16_le (x : Int) : toInt16 x ≤ 32767 := by
  unfold toInt16; omega

theorem R_RGBW32 (r g b w : Nat) : R (RGBW32 r g b w) = r % 256 := by
  unfold R RGBW32; omega

theorem G_RGBW32 (r g b w : Nat) : G (RGBW32 r g b w) = g % 256 := by
  unfold G RGBW32; omega

theorem B_RGBW32 (r g b w : Nat) : B (RGBW32 r g b w) = b % 256 := by
  unfold B RGBW32; omega

theorem W_RGBW32 (r g b w : Nat) : W (RGBW32 r g b w) = w % 256 := by
  unfold W RGBW32; omega

theorem qadd8_mod (i j : Nat) : qadd8 i j % 256 = min 255 (i + j) := by
  unfold qadd8; omega

theorem R_qadd32 (x y : Nat) : R (qadd32 x y) = min 255 (R x + R y) := by
  unfold qadd32; rw [R_RGBW32, qadd8_mod]

theorem G_qadd32 (x y : Nat) : G (qadd32 x y) = min 255 (G x + G y) := by
  unfold qadd32; rw [G_RGBW32, qadd8_mod]

theorem B_qadd32 (x y : Nat) : B (qadd32 x y) = min 255 (B x + B y) := by
  unfold qadd32; rw [B_RGBW32, qadd8_mod]

theorem W_qadd32 (x y : Nat) : W (qadd32 x y) = min 255 (W x + W y) := by
  unfold qadd32; rw [W_RGBW32, qadd8_mod]

theorem qadd8_swap (c a b : Nat) :
    qadd8 (min 255 (c + a)) b = qadd8 (min 255 (c + b)) a := by
  unfold qadd8; omega

/-! ## C9: time decomposition -/

/-- C9: for every seconds or minutes value `x` in `0..59` the tens progress computed by
`handleOverlayDraw` is `x / 10` and lies in `0..5`, the units progress is `x % 10` and
lies in `0..9`, and `10 * tens + units = x`; for every hours value `h` in `0..23` the
hours progress `h > 12 ? h - 12 : h % 12` equals `h mod 12`, lies in `0..11`, and hours
0 and 12 both give 0. -/
theorem C9_time_decomposition (x h : Int) (hx0 : 0 ≤ x) (hx1 : x ≤ 59)
    (hh0 : 0 ≤ h) (hh1 : h ≤ 23) :
    tensP x = x / 10 ∧ 0 ≤ tensP x ∧ tensP x ≤ 5 ∧
    unitsP x = x % 10 ∧ 0 ≤ unitsP x ∧ unitsP x ≤ 9 ∧
    10 * tensP x + unitsP x = x ∧
    hours12P h = h % 12 ∧ 0 ≤ hours12P h ∧ hours12P h ≤ 11 ∧
    hours12P 0 = 0 ∧ hours12P 12 = 0 := by
  rw [tensP_eq x hx0, unitsP_eq x hx0, hours12P_eq h hh0 hh1]
  refine ⟨rfl, by omega, by omega, rfl, by omega, by omega, by omega, rfl, by omega,
    by omega, by decide, by decide⟩

/-- C9 at 47 seconds and 17 hours: tens 4, units 7, hours progress 5. -/
theorem C9_time_decomposition_witness :
    tensP 47 = 4 ∧ unitsP 47 = 7 ∧ hours12P 17 = 5 := by
  have h := C9_time_decomposition 47 17 (by decide) (by decide) (by decide) (by decide)
  obtain ⟨h1, -, -, h2, -, -, -, h3, -⟩ := h
  exact ⟨by rw [h1]; decide, by rw [h2]; decide, by rw [h3]; decide⟩

/-! ## C10: segment validation -/

/-- C10: if `firstLed < 0`, `firstLed >= L`, `lastLed < firstLed` or `lastLed >= L`, then
`Segment::validateAndUpdate` resets the segment to the default, whose `firstLed`,
`lastLed` and `offset` are 0; otherwise `firstLed` and `lastLed` are left unchanged. -/
theorem C10_validate_bounds (L : Nat) (s : Segment) :
    ((s.firstLed < 0 ∨ s.firstLed ≥ (L : Int) ∨ s.lastLed < s.firstLed ∨
        s.lastLed ≥ (L : Int)) →
      s.validateAndUpdate L = Segment.default ∧
      (s.validateAndUpdate L).firstLed = 0 ∧ (s.validateAndUpdate L).lastLed = 0 ∧
      (s.validateAndUpdate L).offset = 0) ∧
    (¬ (s.firstLed < 0 ∨ s.firstLed ≥ (L : Int) ∨ s.lastLed < s.firstLed ∨
        s.lastLed ≥ (L : Int)) →
      (s.validateAndUpdate L).firstLed = s.firstLed ∧
      (s.validateAndUpdate L).lastLed = s.lastLed) := by
  constructor
  · intro h
    have e : s.validateAndUpdate L = Segment.default := by
      unfold Segment.validateAndUpdate
      rw [if_pos h]
    rw [e]
    exact ⟨rfl, rfl, rfl, rfl⟩
  · intro h
    unfold Segment.validateAndUpdate
    rw [if_neg h]
    simp only [Segment.update]
    split <;> exact ⟨rfl, rfl⟩

/-- C10 on a strip of 40 LEDs: the segment `-1..8` is reset, the segment `9..13` keeps
its bounds. -/
theorem C10_validate_bounds_witness :
    (mkSegment (-1) 8 0).validateAndUpdate 40 = Segment.default ∧
    ((mkSegment 9 13 0).validateAndUpdate 40).firstLed = 9 ∧
    ((mkSegment 9 13 0).validateAndUpdate 40).lastLed = 13 :=
  ⟨((C10_validate_bounds 40 (mkSegment (-1) 8 0)).1 (by decide)).1,
   ((C10_validate_bounds 40 (mkSegment 9 13 0)).2 (by decide)).1,
   ((C10_validate_bounds 40 (mkSegment 9 13 0)).2 (by decide)).2⟩

/-! ## C8: additive blend -/

/-- C8: `qadd32` is order-independent, `qadd32 (qadd32 c a) b = qadd32 (qadd32 c b) a`,
and each of the four channels of `qadd32 x y` is `min 255 (channel x + channel y)`, so
no channel exceeds 255. -/
theorem C8_qadd32_commutes_saturates (c a b x y : Nat) :
    qadd32 (qadd32 c a) b = qadd32 (qadd32 c b) a ∧
    R (qadd32 x y) = min 255 (R x + R y) ∧ G (qadd32 x y) = min 255 (G x + G y) ∧
    B (qadd32 x y) = min 255 (B x + B y) ∧ W (qadd32 x y) = min 255 (W x + W y) ∧
    R (qadd32 x y) ≤ 255 ∧ G (qadd32 x y) ≤ 255 ∧ B (qadd32 x y) ≤ 255 ∧
    W (qadd32 x y) ≤ 255 := by
  refine ⟨?_, R_qadd32 x y, G_qadd32 x y, B_qadd32 x y, W_qadd32 x y, ?_, ?_, ?_, ?_⟩
  · show RGBW32 _ _ _ _ = RGBW32 _ _ _ _
    rw [R_qadd32, G_qadd32, B_qadd32, W_qadd32, R_qadd32, G_qadd32, B_qadd32, W_qadd32,
      qadd8_swap (R c), qadd8_swap (G c), qadd8_swap (B c), qadd8_swap (W c)]
  · rw [R_qadd32]; omega
  · rw [G_qadd32]; omega
  · rw [B_qadd32]; omega
  · rw [W_qadd32]; omega

/-! ## C7: inc after dec -/

end AnalogSegmentsClock

namespace AnalogSegmentsClock

/-! ## C5: mapping with offset 0 -/

theorem adjustToSegment_offset_zero (seg : Segment) (hr : seg.InRange)
    (hf : 0 ≤ seg.firstLed) (ho : seg.offset = 0) (p : Int) (hp1 : 1 ≤ p)
    (hp2 : p ≤ seg.lastLed - seg.firstLed + 1) :
    adjustToSegment p seg = seg.firstLed + p - 1 := by
  obtain ⟨-, ⟨-, hl⟩, -, -⟩ := hr
  unfold adjustToSegment
  simp only [ho, add_zero]
  rw [toInt16_of_fits _ (by omega) (by omega)]
  rw [if_neg (by omega)]

/-- C5: for every segment with `0 <= firstLed <= lastLed` and `offset = 0`, writing
`size` for `lastLed - firstLed + 1`: for every progress `p` with `1 <= p <= size`,
`adjustToSegment p seg = firstLed + p - 1`, which lies in `[firstLed, lastLed]`; the
result is strictly increasing in `p` over `[1, size]`; and with the progress taken
cyclically modulo `size`, every LED of the segment is produced by exactly one of any
`size` consecutive progress values `a, ..., a + size - 1`. -/
theorem C5_adjust_offset_zero (seg : Segment) (hr : seg.InRange)
    (hf : 0 ≤ seg.firstLed) (hl : seg.firstLed ≤ seg.lastLed) (ho : seg.offset = 0) :
    (∀ p : Int, 1 ≤ p → p ≤ seg.lastLed - seg.firstLed + 1 →
      adjustToSegment p seg = seg.firstLed + p - 1 ∧ seg.Covers (adjustToSegment p seg)) ∧
    (∀ p q : Int, 1 ≤ p → p < q → q ≤ seg.lastLed - seg.firstLed + 1 →
      adjustToSegment p seg < adjustToSegment q seg) ∧
    (∀ a led : Int, seg.Covers led →
      ∃! q : Int, a ≤ q ∧ q < a + (seg.lastLed - seg.firstLed + 1) ∧
        adjustToSegment ((q - 1) % (seg.lastLed - seg.firstLed + 1) + 1) seg = led) := by
  have key := adjustToSegment_offset_zero seg hr hf ho
  refine ⟨?_, ?_, ?_⟩
  · intro p hp1 hp2
    rw [key p hp1 hp2]
    exact ⟨rfl, by unfold Segment.Covers; omega⟩
  · intro p q hp hpq hq
    rw [key p hp (by omega), key q (by omega) hq]
    omega
  · intro a led hc
    obtain ⟨hc1, hc2⟩ := hc
    generalize hn : seg.lastLed - seg.firstLed + 1 = n at key ⊢
    have hn0 : 0 < n := by omega
    have hmap : ∀ q : Int, adjustToSegment ((q - 1) % n + 1) seg
        = seg.firstLed + (q - 1) % n := by
      intro q
      have h1 := Int.emod_nonneg (q - 1) (ne_of_gt hn0)
      have h2 := Int.emod_lt_of_pos (q - 1) hn0
      rw [key _ (by omega) (by omega)]
      omega
    have hk1 := Int.emod_nonneg (led - seg.firstLed + 1 - a) (ne_of_gt hn0)
    have hk2 := Int.emod_lt_of_pos (led - seg.firstLed + 1 - a) hn0
    refine ⟨a + (led - seg.firstLed + 1 - a) % n, ⟨by omega, by omega, ?_⟩, ?_⟩
    · rw [hmap]
      have e : (a + (led - seg.firstLed + 1 - a) % n - 1) % n = led - seg.firstLed := by
        have e1 : a + (led - seg.firstLed + 1 - a) % n - 1
            = (a - 1) + (led - seg.firstLed + 1 - a) % n := by ring
        rw [e1, Int.add_emod, Int.emod_emod, ← Int.add_emod]
        have e2 : a - 1 + (led - seg.firstLed + 1 - a) = led - seg.firstLed := by ring
        rw [e2]
        exact Int.emod_eq_of_lt (by omega) (by omega)
      rw [e]; ring
    · rintro q ⟨hq1, hq2, hq3⟩
      rw [hmap] at hq3
      have hq4 : (q - 1) % n = led - seg.firstLed := by omega
      have hd := Int.emod_add_ediv (q - 1) n
      have hd2 := Int.emod_add_ediv (led - seg.firstLed + 1 - a) n
      generalize (q - 1) / n = u at hd
      generalize (led - seg.firstLed + 1 - a) / n = v at hd2
      generalize (led - seg.firstLed + 1 - a) % n = r at hd2 hk1 hk2 ⊢
      rw [hq4] at hd
      have huv : n * (u + v) = a - 1 + r - (a - 1 + r) + (n * u + n * v) := by ring
      have h3 : q - a - r = n * (u + v) - 0 := by
        have : n * (u + v) = n * u + n * v := by ring
        omega
      have hlt : -n < q - a - r ∧ q - a - r < n := by omega
      have huv0 : u + v = 0 := by
        rcases lt_trichotomy (u + v) 0 with h | h | h
        · have : n * (u + v) ≤ n * (-1) := Int.mul_le_mul_of_nonneg_left (by omega) (le_of_lt hn0)
          omega
        · exact h
        · have : n * 1 ≤ n * (u + v) := Int.mul_le_mul_of_nonneg_left (by omega) (le_of_lt hn0)
          omega
      rw [huv0] at h3
      omega

/-- C5 on the segment `9..13`: progress 3 is mapped to LED 11, inside the segment. -/
theorem C5_adjust_offset_zero_witness :
    adjustToSegment 3 (mkSegment 9 13 0) = 9 + 3 - 1 ∧
    (mkSegment 9 13 0).Covers (adjustToSegment 3 (mkSegment 9 13 0)) :=
  (C5_adjust_offset_zero (mkSegment 9 13 0) (by decide) (by decide) (by decide)
    (by decide)).1 3 (by decide) (by decide)

end AnalogSegmentsClock

namespace AnalogSegmentsClock

theorem setPixelColor_writes (blend : Bool) (n : Int) (c : Nat) (st : Strip) :
    (setPixelColor blend n c st).writes = n :: st.writes := by
  unfold setPixelColor
  cases blend <;> rfl

theorem setPixelColor_reads (blend : Bool) (n : Int) (c : Nat) (st : Strip) :
    (setPixelColor blend n c st).reads = (if blend then [n] else []) ++ st.reads := by
  unfold setPixelColor
  cases blend <;> rfl

theorem setPixelColor_pixels (blend : Bool) (n : Int) (c : Nat) (st : Strip) (k : Int) :
    (setPixelColor blend n c st).pixels k =
      if k = n then (if blend then qadd32 (st.pixels n) c else c) else st.pixels k := by
  unfold setPixelColor
  cases blend <;> rfl

theorem forSetPixelColor_returns (blend : Bool) (c : Nat) (bound : Int) (hb : bound < 32767) :
    ∀ (fuel : Nat) (i : Int) (st : Strip), 0 ≤ i → i ≤ 32767 →
      (bound + 1 - i).toNat < fuel →
      ∃ st' ws, forSetPixelColor blend c bound fuel i st = Outcome.returned st' ∧
        st'.writes = ws ++ st.writes ∧
        st'.reads = (if blend then ws else []) ++ st.reads ∧
        ws.Nodup ∧ (∀ k, k ∈ ws ↔ i ≤ k ∧ k ≤ bound) ∧
        ∀ k, st'.pixels k =
          if i ≤ k ∧ k ≤ bound then (if blend then qadd32 (st.pixels k) c else c)
          else st.pixels k := by
  intro fuel
  induction fuel with
  | zero => intro i st _ _ h; omega
  | succ fuel ih =>
    intro i st hi0 hi1 hfuel
    unfold forSetPixelColor
    by_cases hle : i ≤ bound
    · rw [if_pos hle]
      have e16 : toInt16 (i + 1) = i + 1 := toInt16_of_fits _ (by omega) (by omega)
      have eu : toUInt16 i = i := toUInt16_of_fits _ hi0 (by omega)
      rw [e16, eu]
      obtain ⟨st', ws, hrun, hw, hr, hnd, hmem, hpx⟩ :=
        ih (i + 1) (setPixelColor blend i c st) (by omega) (by omega) (by omega)
      refine ⟨st', ws ++ [i], hrun, ?_, ?_, ?_, ?_, ?_⟩
      · rw [hw, setPixelColor_writes]; simp
      · rw [hr, setPixelColor_reads]; cases blend <;> simp
      · rw [List.nodup_append]
        refine ⟨hnd, List.nodup_singleton i, ?_⟩
        intro a ha hb
        rw [List.mem_singleton] at hb
        have := (hmem a).1 ha
        omega
      · intro k
        rw [List.mem_append, hmem, List.mem_singleton]
        omega
      · intro k
        rw [hpx]
        simp only [setPixelColor_pixels]
        by_cases hk : k = i
        · subst hk
          have h1 : ¬ (k + 1 ≤ k ∧ k ≤ bound) := by omega
          simp [hle]
        · have h1 : (i + 1 ≤ k ∧ k ≤ bound) ↔ (i ≤ k ∧ k ≤ bound) := by omega
          simp only [if_neg hk, h1]
    · rw [if_neg hle]
      refine ⟨st, [], rfl, by simp, by cases blend <;> simp, List.nodup_nil, ?_, ?_⟩
      · intro k; simp; omega
      · intro k; rw [if_neg (by omega)]

theorem forSetPixelColor_diverges (blend : Bool) (c : Nat) (bound : Int) (hb : 32767 ≤ bound) :
    ∀ (fuel : Nat) (i : Int) (st : Strip), i ≤ 32767 →
      (forSetPixelColor blend c bound fuel i st).finished = false := by
  intro fuel
  induction fuel with
  | zero => intro i st _; rfl
  | succ fuel ih =>
    intro i st hi
    unfold forSetPixelColor
    rw [if_pos (by omega)]
    exact ih _ _ (toInt16_le _)

end AnalogSegmentsClock

namespace AnalogSegmentsClock

theorem adjustToSegment_eq (seg : Segment) (p : Int) (hf : 0 ≤ seg.firstLed)
    (hl : seg.firstLed ≤ seg.lastLed) (hp : 0 ≤ seg.offset + p)
    (hov : seg.firstLed + seg.offset + p - 1 ≤ 32767) :
    adjustToSegment p seg =
      if seg.firstLed + seg.offset + p - 1 > seg.lastLed then
        seg.firstLed + seg.offset + p - 1 - seg.lastLed - 1 + seg.firstLed
      else seg.firstLed + seg.offset + p - 1 := by
  unfold adjustToSegment
  simp only []
  rw [toInt16_of_fits _ (by omega) hov]
  by_cases h : seg.firstLed + seg.offset + p - 1 > seg.lastLed
  · rw [if_pos h, if_pos h, toInt16_of_fits _ (by omega) (by omega)]
  · rw [if_neg h, if_neg h]

theorem adjustToSegment_covers (seg : Segment) (p : Int) (hf : 0 ≤ seg.firstLed)
    (hl : seg.firstLed ≤ seg.lastLed)
    (ho1 : seg.offset ≤ seg.lastLed - seg.firstLed + 1) (hp0 : 1 ≤ seg.offset + p)
    (hp1 : p ≤ seg.lastLed - seg.firstLed + 1)
    (hov : seg.firstLed + seg.offset + p - 1 ≤ 32767) :
    seg.Covers (adjustToSegment p seg) := by
  rw [adjustToSegment_eq seg p hf hl (by omega) hov]
  unfold Segment.Covers
  split <;> omega

/-! ## C6: the cumulative bar at the maximal progress value -/

/-- C6 as stated fails on the one-LED segment `32767..32767` (offset 0, size 1): the
loop counter of `setPixelColorCumulative` is an `int16_t`, `i <= 32767` never fails, and
after LED 32767 the index 32768 outside the segment is written. -/
theorem C6_cumulative_int16_counterexample :
    0 ≤ (mkSegment 32767 32767 0).firstLed ∧
    (mkSegment 32767 32767 0).firstLed ≤ (mkSegment 32767 32767 0).lastLed ∧
    0 ≤ (mkSegment 32767 32767 0).offset ∧
    (mkSegment 32767 32767 0).offset ≤ (mkSegment 32767 32767 0).size ∧
    (mkSegment 32767 32767 0).InRange ∧
    (32768 : Int) ∈ (setPixelColorCumulative false 2
      (toUInt16 (adjustToSegment (mkSegment 32767 32767 0).size (mkSegment 32767 32767 0)))
      0xFF0000 (mkSegment 32767 32767 0) Strip.black).strip.writes ∧
    ¬ (mkSegment 32767 32767 0).Covers 32768 := by
  decide

/-- C6, amended: for every segment with `0 <= firstLed <= lastLed < 32767`,
`size = lastLed - firstLed + 1`, `0 <= offset <= size` and `lastLed + offset <= 32767`,
the call `setPixelColorCumulative(adjustToSegment(size, segment), c, segment)` returns
(with more fuel than `size`), and the indices it writes are exactly those of
`[firstLed+offset, lastLed] ∪ [firstLed, mappedLed]`, which are exactly the LEDs of the
segment `[firstLed, lastLed]`; in particular no index outside the segment is written. -/
theorem C6_cumulative_full (blend : Bool) (c : Nat) (seg : Segment) (st : Strip)
    (fuel : Nat) (hf : 0 ≤ seg.firstLed) (hl : seg.firstLed ≤ seg.lastLed)
    (hl2 : seg.lastLed < 32767) (hs : seg.size = seg.lastLed - seg.firstLed + 1)
    (ho0 : 0 ≤ seg.offset) (ho1 : seg.offset ≤ seg.size)
    (hov : seg.lastLed + seg.offset ≤ 32767) (hfuel : seg.size < (fuel : Int)) :
    ∃ st' ws,
      setPixelColorCumulative blend fuel (toUInt16 (adjustToSegment seg.size seg)) c seg st
        = Outcome.returned st' ∧
      st'.writes = ws ++ st.writes ∧
      (∀ k, k ∈ ws ↔ (seg.firstLed + seg.offset ≤ k ∧ k ≤ seg.lastLed) ∨
        (seg.firstLed ≤ k ∧ k ≤ adjustToSegment seg.size seg)) ∧
      (∀ k, k ∈ ws ↔ seg.Covers k) := by
  have hadj := adjustToSegment_eq seg seg.size hf hl (by omega) (by omega)
  unfold setPixelColorCumulative
  unfold Segment.Covers
  have e16 : toInt16 (seg.firstLed + seg.offset) = seg.firstLed + seg.offset :=
    toInt16_of_fits _ (by omega) (by omega)
  have e16f : toInt16 seg.firstLed = seg.firstLed := toInt16_of_fits _ (by omega) (by omega)
  rw [e16, e16f]
  by_cases h0 : seg.offset = 0
  · rw [if_neg (by omega)] at hadj
    have hled : adjustToSegment seg.size seg = seg.lastLed := by omega
    rw [hled, toUInt16_of_fits _ (by omega) (by omega), if_pos (by omega)]
    obtain ⟨st', ws, hrun, hw, -, -, hmem, -⟩ :=
      forSetPixelColor_returns blend c seg.lastLed hl2 fuel (seg.firstLed + seg.offset) st
        (by omega) (by omega) (by omega)
    refine ⟨st', ws, hrun, hw, ?_, ?_⟩
    · intro k; rw [hmem]; omega
    · intro k; rw [hmem]; omega
  · rw [if_pos (by omega)] at hadj
    have hled : adjustToSegment seg.size seg = seg.firstLed + seg.offset - 1 := by omega
    rw [hled, toUInt16_of_fits _ (by omega) (by omega), if_neg (by omega)]
    obtain ⟨st1, ws1, hrun1, hw1, -, -, hmem1, -⟩ :=
      forSetPixelColor_returns blend c seg.lastLed hl2 fuel (seg.firstLed + seg.offset) st
        (by omega) (by omega) (by omega)
    obtain ⟨st2, ws2, hrun2, hw2, -, -, hmem2, -⟩ :=
      forSetPixelColor_returns blend c (seg.firstLed + seg.offset - 1) (by omega) fuel
        seg.firstLed st1 (by omega) (by omega) (by omega)
    refine ⟨st2, ws2 ++ ws1, ?_, ?_, ?_, ?_⟩
    · rw [hrun1]; exact hrun2
    · rw [hw2, hw1, List.append_assoc]
    · intro k; rw [List.mem_append, hmem1, hmem2]; omega
    · intro k; rw [List.mem_append, hmem1, hmem2]; omega

/-- C6 amended, on the segment `9..13` with offset 2: the full bar returns and writes
exactly the LEDs 9..13. -/
theorem C6_cumulative_full_witness :
    ∃ st' ws,
      setPixelColorCumulative false 6
        (toUInt16 (adjustToSegment (mkSegment 9 13 2).size (mkSegment 9 13 2))) 0xFF0000
        (mkSegment 9 13 2) Strip.black = Outcome.returned st' ∧
      st'.writes = ws ++ Strip.black.writes ∧
      (∀ k, k ∈ ws ↔ ((mkSegment 9 13 2).firstLed + (mkSegment 9 13 2).offset ≤ k ∧
          k ≤ (mkSegment 9 13 2).lastLed) ∨
        ((mkSegment 9 13 2).firstLed ≤ k ∧
          k ≤ adjustToSegment (mkSegment 9 13 2).size (mkSegment 9 13 2))) ∧
      (∀ k, k ∈ ws ↔ (mkSegment 9 13 2).Covers k) :=
  C6_cumulative_full false 0xFF0000 (mkSegment 9 13 2) Strip.black 6 (by decide) (by decide)
    (by decide) (by decide) (by decide) (by decide) (by decide) (by decide)

end AnalogSegmentsClock

namespace AnalogSegmentsClock

/-! ## C1: the frame at 11:05:30 -/

/-- C1: on the default layout (`0..8`, `9..13`, `14..22`, `23..27`, `28..39`, offsets 0)
in single/solid mode with blending off and a black buffer, the frame at 11:05:30 returns
after the writes 11, 11, 38: the minutes-units colour is written to `secondLed5` (LED 11)
and replaces the seconds-tens colour there, LED 18 (minutes-units `firstLed + 4`) stays
black, LED 38 holds the hour colour, and exactly the two pixels 11 and 38 are lit. -/
theorem C1_frame_11_05_30 (host : Host) :
    (handleOverlayDraw host (defaultUsermod 0 0) ⟨30, 5, 11, 0⟩ 0 Strip.black).finished
      = true ∧
    (handleOverlayDraw host (defaultUsermod 0 0) ⟨30, 5, 11, 0⟩ 0 Strip.black).strip.writes
      = [38, 11, 11] ∧
    (handleOverlayDraw host (defaultUsermod 0 0) ⟨30, 5, 11, 0⟩ 0 Strip.black).strip.pixels 11
      = (defaultUsermod 0 0).minuteUnitColor ∧
    (handleOverlayDraw host (defaultUsermod 0 0) ⟨30, 5, 11, 0⟩ 0 Strip.black).strip.pixels 18
      = 0 ∧
    (handleOverlayDraw host (defaultUsermod 0 0) ⟨30, 5, 11, 0⟩ 0 Strip.black).strip.pixels 38
      = (defaultUsermod 0 0).hourColor ∧
    (defaultUsermod 0 0).minuteUnitColor ≠ (defaultUsermod 0 0).secondTensColor ∧
    ∀ k : Int,
      (handleOverlayDraw host (defaultUsermod 0 0) ⟨30, 5, 11, 0⟩ 0 Strip.black).strip.pixels k
        ≠ 0 ↔ k = 11 ∨ k = 38 := by
  have hpx :
      (handleOverlayDraw host (defaultUsermod 0 0) ⟨30, 5, 11, 0⟩ 0 Strip.black).strip.pixels
        = fun k => if k = 38 then 0x0000FF else if k = 11 then 0x00FF00
            else if k = 11 then 0xFF0000 else 0 := rfl
  refine ⟨rfl, rfl, rfl, rfl, rfl, by decide, ?_⟩
  intro k
  rw [hpx]
  by_cases h38 : k = 38
  · simp [h38]
  · by_cases h11 : k = 11
    · simp [h11]
    · simp [h38, h11]

/-! ## C3: the frame at 00:00:00 -/

/-- C3: on the default layout in single/solid mode with blending off and a black buffer,
the frame at 00:00:00 has hours progress 0 and maps it to `firstLed + offset - 1`, LED 27:
the only write and the only lit pixel is LED 27 with the hour colour, which lies outside
the hours segment `28..39` and inside the minutes-tens segment `23..27`. -/
theorem C3_frame_00_00_00 (host : Host) :
    hours12P 0 = 0 ∧
    adjustToSegment (hours12P 0) (defaultUsermod 0 0).hours12_Segment = 27 ∧
    (handleOverlayDraw host (defaultUsermod 0 0) ⟨0, 0, 0, 0⟩ 0 Strip.black).finished
      = true ∧
    (handleOverlayDraw host (defaultUsermod 0 0) ⟨0, 0, 0, 0⟩ 0 Strip.black).strip.writes
      = [27] ∧
    (handleOverlayDraw host (defaultUsermod 0 0) ⟨0, 0, 0, 0⟩ 0 Strip.black).strip.pixels 27
      = (defaultUsermod 0 0).hourColor ∧
    (∀ k : Int,
      (handleOverlayDraw host (defaultUsermod 0 0) ⟨0, 0, 0, 0⟩ 0 Strip.black).strip.pixels k
        ≠ 0 ↔ k = 27) ∧
    ¬ (defaultUsermod 0 0).hours12_Segment.Covers 27 ∧
    (defaultUsermod 0 0).minutes5_Segment.Covers 27 := by
  have hpx :
      (handleOverlayDraw host (defaultUsermod 0 0) ⟨0, 0, 0, 0⟩ 0 Strip.black).strip.pixels
        = fun k => if k = 27 then 0x0000FF else 0 := rfl
  refine ⟨by decide, by decide, rfl, rfl, rfl, ?_, by decide, by decide⟩
  intro k
  rw [hpx]
  by_cases h : k = 27
  · simp [h]
  · simp [h]

end AnalogSegmentsClock

namespace AnalogSegmentsClock

/-! ## The draws of a frame -/

theorem Segment.mem_leds (s : Segment) (x : Int) : x ∈ s.leds ↔ s.Covers x := by
  unfold Segment.leds Segment.Covers
  rw [List.mem_map]
  constructor
  · rintro ⟨i, hi, rfl⟩
    rw [List.mem_range] at hi
    simp only [Int.ofNat_eq_coe]
    omega
  · intro h
    refine ⟨(x - s.firstLed).toNat, ?_, ?_⟩
    · rw [List.mem_range]; omega
    · simp only [Int.ofNat_eq_coe]
      omega

theorem loopHits_iff (lo hi x : Int) (hlo : -32768 ≤ lo) (hhi : hi ≤ 32767) :
    loopHits lo hi x ↔ ∃ j, lo ≤ j ∧ j ≤ hi ∧ x = toUInt16 j := by
  unfold loopHits toUInt16
  constructor
  · rintro (⟨a, b, c⟩ | ⟨a, b, c⟩)
    · exact ⟨x, a, b, by omega⟩
    · exact ⟨x - 65536, by omega, by omega, by omega⟩
  · rintro ⟨j, a, b, c⟩
    omega

theorem forSetPixelColor_loop (blend : Bool) (c : Nat) (bound : Int) (hb : bound < 32767) :
    ∀ (fuel : Nat) (i : Int) (st : Strip), -32768 ≤ i → i ≤ 32767 →
      (bound + 1 - i).toNat < fuel →
      ∃ st' ws, forSetPixelColor blend c bound fuel i st = Outcome.returned st' ∧
        st'.writes = ws ++ st.writes ∧
        st'.reads = (if blend then ws else []) ++ st.reads ∧
        ∀ k, k ∈ ws ↔ loopHits i bound k := by
  intro fuel
  induction fuel with
  | zero => intro i st _ _ h; omega
  | succ fuel ih =>
    intro i st hi0 hi1 hfuel
    unfold forSetPixelColor
    by_cases hle : i ≤ bound
    · rw [if_pos hle]
      have e16 : toInt16 (i + 1) = i + 1 := toInt16_of_fits _ (by omega) (by omega)
      rw [e16]
      obtain ⟨st', ws, hrun, hw, hr, hmem⟩ :=
        ih (i + 1) (setPixelColor blend (toUInt16 i) c st) (by omega) (by omega) (by omega)
      refine ⟨st', ws ++ [toUInt16 i], hrun, ?_, ?_, ?_⟩
      · rw [hw, setPixelColor_writes]; simp
      · rw [hr, setPixelColor_reads]; cases blend <;> simp
      · intro k
        rw [List.mem_append, hmem, List.mem_singleton]
        unfold loopHits toUInt16
        omega
    · rw [if_neg hle]
      refine ⟨st, [], rfl, by simp, by cases blend <;> simp, ?_⟩
      intro k
      unfold loopHits
      simp only [List.not_mem_nil, false_iff]
      omega

theorem Strip.DrawnBy.nil (um : Usermod) (st : Strip) : Strip.DrawnBy um [] st st :=
  ⟨[], by simp, by simp, by simp⟩

theorem Strip.DrawnBy.append {um : Usermod} {a b : List (Segment × Int)} {s0 s1 s2 : Strip}
    (h1 : Strip.DrawnBy um a s0 s1) (h2 : Strip.DrawnBy um b s1 s2) :
    Strip.DrawnBy um (a ++ b) s0 s2 := by
  obtain ⟨ws1, hw1, hr1, hm1⟩ := h1
  obtain ⟨ws2, hw2, hr2, hm2⟩ := h2
  refine ⟨ws2 ++ ws1, ?_, ?_, ?_⟩
  · rw [hw2, hw1, List.append_assoc]
  · rw [hr2, hr1]; cases um.blendColors <;> simp
  · intro k
    rw [List.mem_append, hm1, hm2]
    constructor
    · rintro (⟨d, hd, h⟩ | ⟨d, hd, h⟩)
      · exact ⟨d, List.mem_append.2 (Or.inr hd), h⟩
      · exact ⟨d, List.mem_append.2 (Or.inl hd), h⟩
    · rintro ⟨d, hd, h⟩
      rcases List.mem_append.1 hd with hd | hd
      · exact Or.inr ⟨d, hd, h⟩
      · exact Or.inl ⟨d, hd, h⟩

theorem Outcome.ReturnsDrawn.of_strip {um : Usermod} {ds : List (Segment × Int)}
    {st st' : Strip} (h : Strip.DrawnBy um ds st st') :
    Outcome.ReturnsDrawn um ds st (Outcome.returned st') :=
  ⟨st', rfl, h⟩

theorem Outcome.ReturnsDrawn.bind {um : Usermod} {a b : List (Segment × Int)} {st : Strip}
    {o : Outcome} {f : Strip → Outcome} (h1 : Outcome.ReturnsDrawn um a st o)
    (h2 : ∀ st1, Outcome.ReturnsDrawn um b st1 (f st1)) :
    Outcome.ReturnsDrawn um (a ++ b) st (o.andThen f) := by
  obtain ⟨st1, ho, he1⟩ := h1
  obtain ⟨st2, hf, he2⟩ := h2 st1
  refine ⟨st2, ?_, he1.append he2⟩
  rw [ho]
  exact hf

theorem draw_single_solid (um : Usermod) (seg : Segment) (led : Int) (c : Nat) (st : Strip)
    (hm : um.markingMode = 0) (he : um.movingEffect = 0) :
    Strip.DrawnBy um [(seg, led)] st (setPixelColor um.blendColors (toUInt16 led) c st) := by
  refine ⟨[toUInt16 led], ?_, ?_, ?_⟩
  · rw [setPixelColor_writes]; rfl
  · rw [setPixelColor_reads]
  · intro k
    simp [Usermod.DrawHits, hm, he]

theorem draw_single_fade (host : Host) (um : Usermod) (seg : Segment) (led : Int) (ms : Nat)
    (c : Nat) (st : Strip) (hm : um.markingMode = 0) (he : um.movingEffect ≠ 0) :
    Strip.DrawnBy um [(seg, led)] st
      (movingEffectSineFade host um.blendColors led ms seg c st) := by
  unfold movingEffectSineFade
  simp only []
  split
  · rename_i hn
    refine ⟨[toUInt16 (inc led 1 seg), toUInt16 led], ?_, ?_, ?_⟩
    · rw [setPixelColor_writes, setPixelColor_writes]; rfl
    · rw [setPixelColor_reads, setPixelColor_reads]
      cases um.blendColors <;> simp
    · intro k
      simp only [Usermod.DrawHits, hm, he, List.mem_cons, List.mem_singleton,
        List.not_mem_nil, or_false, exists_eq_left, if_true, ne_eq, not_false_eq_true,
        true_and]
      constructor
      · rintro (h | h)
        · exact Or.inr ⟨hn, h⟩
        · exact Or.inl h
      · rintro (h | ⟨-, h⟩)
        · exact Or.inr h
        · exact Or.inl h
  · rename_i hn
    refine ⟨[toUInt16 led], ?_, ?_, ?_⟩
    · rw [setPixelColor_writes]; rfl
    · rw [setPixelColor_reads]
    · intro k
      simp only [Usermod.DrawHits, hm, he, List.mem_cons, List.mem_singleton,
        List.not_mem_nil, or_false, exists_eq_left, if_true, ne_eq, not_false_eq_true,
        true_and]
      constructor
      · intro h; exact Or.inl h
      · rintro (h | ⟨h1, -⟩)
        · exact h
        · exact absurd h1 hn

theorem draw_cumulative_solid (um : Usermod) (fuel : Nat) (seg : Segment) (led : Int)
    (c : Nat) (st : Strip) (hm : um.markingMode = 1) (he : um.movingEffect = 0)
    (hg : um.DrawGuard seg led) (hfuel : 65535 < fuel) :
    Outcome.ReturnsDrawn um [(seg, led)] st
      (setPixelColorCumulative um.blendColors fuel (toUInt16 led) c seg st) := by
  obtain ⟨g1, g2, g3, g4, g5, -, g7⟩ := hg hm
  obtain ⟨g8, g9⟩ := g7 he
  have hm0 : ¬ um.markingMode = 0 := by omega
  have hu : toUInt16 led = led := toUInt16_of_fits led g8 (by omega)
  rw [hu]
  unfold setPixelColorCumulative
  rw [toInt16_of_fits (seg.firstLed + seg.offset) g2 g3,
    toInt16_of_fits seg.firstLed (by omega) g5]
  by_cases h : led ≥ seg.firstLed + seg.offset
  · rw [if_pos h]
    obtain ⟨st', ws, hrun, hw, hr, hmem⟩ :=
      forSetPixelColor_loop um.blendColors c led g9 fuel (seg.firstLed + seg.offset) st g2 g3
        (by omega)
    refine ⟨st', hrun, ws, hw, hr, ?_⟩
    intro k
    rw [hmem]
    have h' : seg.firstLed + seg.offset ≤ led := h
    simp [Usermod.DrawHits, hm0, he, hu, h']
  · rw [if_neg h]
    obtain ⟨st1, ws1, hrun1, hw1, hr1, hmem1⟩ :=
      forSetPixelColor_loop um.blendColors c seg.lastLed g1 fuel (seg.firstLed + seg.offset)
        st g2 g3 (by omega)
    obtain ⟨st2, ws2, hrun2, hw2, hr2, hmem2⟩ :=
      forSetPixelColor_loop um.blendColors c led g9 fuel seg.firstLed st1 (by omega) g5
        (by omega)
    refine ⟨st2, ?_, ws2 ++ ws1, ?_, ?_, ?_⟩
    · rw [hrun1]; exact hrun2
    · rw [hw2, hw1, List.append_assoc]
    · rw [hr2, hr1]; cases um.blendColors <;> simp
    · intro k
      rw [List.mem_append, hmem1, hmem2]
      have h' : ¬ seg.firstLed + seg.offset ≤ led := h
      simp only [Usermod.DrawHits, hm0, he, hu, h', List.mem_singleton, exists_eq_left,
        if_false, if_true]
      exact or_comm

theorem draw_cumulative_fade (host : Host) (um : Usermod) (fuel : Nat) (seg : Segment)
    (led : Int) (ms : Nat) (c : Nat) (st : Strip) (hm : um.markingMode = 1)
    (he : um.movingEffect ≠ 0) (hg : um.DrawGuard seg led) (hfuel : 65535 < fuel) :
    Outcome.ReturnsDrawn um [(seg, led)] st
      (movingEffectSineFadeCumulative host um.blendColors fuel led ms seg c st) := by
  obtain ⟨g1, g2, g3, g4, g5, ⟨g6, g7⟩, -⟩ := hg hm
  have hm0 : ¬ um.markingMode = 0 := by omega
  unfold movingEffectSineFadeCumulative
  simp only []
  rw [toInt16_of_fits (seg.firstLed + seg.offset) g2 g3,
    toInt16_of_fits seg.firstLed (by omega) g5]
  by_cases h : led ≥ seg.firstLed + seg.offset
  · rw [if_pos h]
    obtain ⟨st', ws, hrun, hw, hr, hmem⟩ :=
      forSetPixelColor_loop um.blendColors c (led - 1) (by omega) fuel
        (seg.firstLed + seg.offset) st g2 g3 (by omega)
    rw [hrun]
    refine ⟨_, rfl, toUInt16 led :: ws, ?_, ?_, ?_⟩
    · rw [setPixelColor_writes, hw]; rfl
    · rw [setPixelColor_reads, hr]; cases um.blendColors <;> simp
    · intro k
      rw [List.mem_cons, hmem]
      have h' : seg.firstLed + seg.offset ≤ led := h
      simp [Usermod.DrawHits, hm0, he, h']
  · rw [if_neg h]
    obtain ⟨st1, ws1, hrun1, hw1, hr1, hmem1⟩ :=
      forSetPixelColor_loop um.blendColors c seg.lastLed g1 fuel (seg.firstLed + seg.offset)
        st g2 g3 (by omega)
    obtain ⟨st2, ws2, hrun2, hw2, hr2, hmem2⟩ :=
      forSetPixelColor_loop um.blendColors c (led - 1) (by omega) fuel seg.firstLed st1
        (by omega) g5 (by omega)
    rw [hrun1]
    simp only [Outcome.andThen]
    rw [hrun2]
    refine ⟨_, rfl, toUInt16 led :: (ws2 ++ ws1), ?_, ?_, ?_⟩
    · rw [setPixelColor_writes, hw2, hw1]; simp
    · rw [setPixelColor_reads, hr2, hr1]; cases um.blendColors <;> simp
    · intro k
      rw [List.mem_cons, List.mem_append, hmem1, hmem2]
      have h' : ¬ seg.firstLed + seg.offset ≤ led := h
      simp only [Usermod.DrawHits, hm0, he, h', List.mem_singleton, exists_eq_left,
        if_false, ne_eq, not_false_eq_true, true_and]
      constructor
      · rintro (h1 | h1 | h1)
        · exact Or.inl h1
        · exact Or.inr (Or.inr h1)
        · exact Or.inr (Or.inl h1)
      · rintro (h1 | h1 | h1)
        · exact Or.inl h1
        · exact Or.inr (Or.inr h1)
        · exact Or.inr (Or.inl h1)

theorem step_single_hours (host : Host) (um : Usermod) (seg : Segment) (led : Int)
    (ms : Nat) (c : Nat) (st : Strip) (hm : um.markingMode = 0) :
    Strip.DrawnBy um [(seg, led)] st
      (if um.movingEffect = 0 then setPixelColor um.blendColors (toUInt16 led) c st
        else movingEffectSineFade host um.blendColors led ms seg c st) := by
  by_cases he : um.movingEffect = 0
  · rw [if_pos he]
    exact draw_single_solid um seg led c st hm he
  · rw [if_neg he]
    exact draw_single_fade host um seg led ms c st hm he

theorem step_single (host : Host) (um : Usermod) (seg : Segment) (led : Int) (ms : Nat)
    (c : Nat) (st : Strip) (p : Int) (hm : um.markingMode = 0) :
    Strip.DrawnBy um (if p > 0 then [(seg, led)] else []) st
      (if p > 0 then
        if um.movingEffect = 0 then setPixelColor um.blendColors (toUInt16 led) c st
        else movingEffectSineFade host um.blendColors led ms seg c st
      else st) := by
  by_cases h : p > 0
  · rw [if_pos h, if_pos h]
    exact step_single_hours host um seg led ms c st hm
  · rw [if_neg h, if_neg h]
    exact Strip.DrawnBy.nil um st

theorem step_single_minutes (host : Host) (um : Usermod) (seg5 seg9 : Segment)
    (led5 led9 : Int) (ms : Nat) (c : Nat) (st : Strip) (p : Int)
    (hm : um.markingMode = 0) :
    Strip.DrawnBy um
      (if p > 0 then
        [if um.markingMode = 0 ∧ um.movingEffect = 0 then (seg5, led5) else (seg9, led9)]
      else []) st
      (if p > 0 then
        if um.movingEffect = 0 then setPixelColor um.blendColors (toUInt16 led5) c st
        else movingEffectSineFade host um.blendColors led9 ms seg9 c st
      else st) := by
  by_cases h : p > 0
  · rw [if_pos h, if_pos h]
    by_cases he : um.movingEffect = 0
    · rw [if_pos he, if_pos ⟨hm, he⟩]
      exact draw_single_solid um _ _ _ _ hm he
    · rw [if_neg he, if_neg (fun hc => he hc.2)]
      exact draw_single_fade host um _ _ _ _ _ hm he
  · rw [if_neg h, if_neg h]
    exact Strip.DrawnBy.nil um _

theorem step_cumulative_hours (host : Host) (um : Usermod) (fuel : Nat) (seg : Segment)
    (led : Int) (ms : Nat) (c : Nat) (st : Strip) (hm : um.markingMode = 1)
    (hg : um.DrawGuard seg led) (hfuel : 65535 < fuel) :
    Outcome.ReturnsDrawn um [(seg, led)] st
      (if um.movingEffect = 0 then
        setPixelColorCumulative um.blendColors fuel (toUInt16 led) c seg st
      else movingEffectSineFadeCumulative host um.blendColors fuel led ms seg c st) := by
  by_cases he : um.movingEffect = 0
  · rw [if_pos he]
    exact draw_cumulative_solid um fuel seg led c st hm he hg hfuel
  · rw [if_neg he]
    exact draw_cumulative_fade host um fuel seg led ms c st hm he hg hfuel

theorem step_cumulative (host : Host) (um : Usermod) (fuel : Nat) (seg : Segment)
    (led : Int) (ms : Nat) (c : Nat) (st : Strip) (p : Int) (hm : um.markingMode = 1)
    (hg : p > 0 → um.DrawGuard seg led) (hfuel : 65535 < fuel) :
    Outcome.ReturnsDrawn um (if p > 0 then [(seg, led)] else []) st
      (if p > 0 then
        if um.movingEffect = 0 then
          setPixelColorCumulative um.blendColors fuel (toUInt16 led) c seg st
        else movingEffectSineFadeCumulative host um.blendColors fuel led ms seg c st
      else Outcome.returned st) := by
  by_cases h : p > 0
  · rw [if_pos h, if_pos h]
    exact step_cumulative_hours host um fuel seg led ms c st hm (hg h) hfuel
  · rw [if_neg h, if_neg h]
    exact Outcome.ReturnsDrawn.of_strip (Strip.DrawnBy.nil um st)

theorem handleOverlayDraw_draws (host : Host) (um : Usermod) (t : Now) (fuel : Nat)
    (st : Strip) (hg : ∀ d ∈ um.draws t, um.DrawGuard d.1 d.2) (hfuel : 65535 < fuel) :
    Outcome.ReturnsDrawn um (um.draws t) st (handleOverlayDraw host um t fuel st) := by
  unfold handleOverlayDraw
  by_cases hen : um.enabled = true
  · rw [hen]
    simp only [Bool.not_true, Bool.false_eq_true, if_false]
    split
    · rename_i hm
      have hd : um.enabled = true ∧ um.markingMode ≤ 1 := ⟨hen, by omega⟩
      unfold Usermod.draws
      rw [if_pos hd]
      refine Outcome.ReturnsDrawn.of_strip ?_
      refine Strip.DrawnBy.append ?_ (step_single_hours host um _ _ _ _ _ hm)
      refine Strip.DrawnBy.append ?_ (step_single host um _ _ _ _ _ _ hm)
      refine Strip.DrawnBy.append ?_ (step_single_minutes host um _ _ _ _ _ _ _ _ hm)
      refine Strip.DrawnBy.append ?_ (step_single host um _ _ _ _ _ _ hm)
      exact step_single host um _ _ _ _ _ _ hm
    · rename_i hm
      have hd : um.enabled = true ∧ um.markingMode ≤ 1 := ⟨hen, by omega⟩
      have hm0 : ¬ (um.markingMode = 0 ∧ um.movingEffect = 0) := fun hc => by omega
      unfold Usermod.draws at hg ⊢
      rw [if_pos hd] at hg ⊢
      rw [if_neg hm0] at hg ⊢
      have g1 : unitsP t.seconds > 0 → um.DrawGuard um.seconds9_Segment
          (adjustToSegment (unitsP t.seconds) um.seconds9_Segment) :=
        fun hp => hg (um.seconds9_Segment,
          adjustToSegment (unitsP t.seconds) um.seconds9_Segment)
          (List.mem_append_left _ (List.mem_append_left _ (List.mem_append_left _
            (List.mem_append_left _ (by rw [if_pos hp]; exact List.mem_singleton.2 rfl)))))
      have g2 : tensP t.seconds > 0 → um.DrawGuard um.seconds5_Segment
          (adjustToSegment (tensP t.seconds) um.seconds5_Segment) :=
        fun hp => hg (um.seconds5_Segment,
          adjustToSegment (tensP t.seconds) um.seconds5_Segment)
          (List.mem_append_left _ (List.mem_append_left _ (List.mem_append_left _
            (List.mem_append_right _ (by rw [if_pos hp]; exact List.mem_singleton.2 rfl)))))
      have g3 : unitsP t.minutes > 0 → um.DrawGuard um.minutes9_Segment
          (adjustToSegment (unitsP t.minutes) um.minutes9_Segment) :=
        fun hp => hg (um.minutes9_Segment,
          adjustToSegment (unitsP t.minutes) um.minutes9_Segment)
          (List.mem_append_left _ (List.mem_append_left _
            (List.mem_append_right _ (by rw [if_pos hp]; exact List.mem_singleton.2 rfl))))
      have g4 : tensP t.minutes > 0 → um.DrawGuard um.minutes5_Segment
          (adjustToSegment (tensP t.minutes) um.minutes5_Segment) :=
        fun hp => hg (um.minutes5_Segment,
          adjustToSegment (tensP t.minutes) um.minutes5_Segment)
          (List.mem_append_left _
            (List.mem_append_right _ (by rw [if_pos hp]; exact List.mem_singleton.2 rfl)))
      have g5 : um.DrawGuard um.hours12_Segment
          (adjustToSegment (hours12P t.hours) um.hours12_Segment) :=
        hg (um.hours12_Segment, adjustToSegment (hours12P t.hours) um.hours12_Segment)
          (List.mem_append_right _ (List.mem_singleton.2 rfl))
      simp only [List.append_assoc]
      refine Outcome.ReturnsDrawn.bind
        (step_cumulative host um fuel _ _ _ _ _ _ hm g1 hfuel) (fun st1 => ?_)
      refine Outcome.ReturnsDrawn.bind
        (step_cumulative host um fuel _ _ _ _ _ _ hm g2 hfuel) (fun st2 => ?_)
      refine Outcome.ReturnsDrawn.bind
        (step_cumulative host um fuel _ _ _ _ _ _ hm g3 hfuel) (fun st3 => ?_)
      refine Outcome.ReturnsDrawn.bind
        (step_cumulative host um fuel _ _ _ _ _ _ hm g4 hfuel) (fun st4 => ?_)
      exact step_cumulative_hours host um fuel _ _ _ _ _ hm g5 hfuel
    · rename_i hn0 hn1
      have n0 : um.markingMode ≠ 0 := hn0
      have n1 : um.markingMode ≠ 1 := hn1
      have hd : ¬ (um.enabled = true ∧ um.markingMode ≤ 1) := fun hc => by omega
      unfold Usermod.draws
      rw [if_neg hd]
      exact Outcome.ReturnsDrawn.of_strip (Strip.DrawnBy.nil um st)
  · have hen' : um.enabled = false := by
      cases h : um.enabled
      · rfl
      · exact absurd h hen
    have hd : ¬ (um.enabled = true ∧ um.markingMode ≤ 1) := fun hc => hen hc.1
    unfold Usermod.draws
    rw [if_neg hd, hen']
    exact Outcome.ReturnsDrawn.of_strip (Strip.DrawnBy.nil um st)

end AnalogSegmentsClock

namespace AnalogSegmentsClock

/-! ## What validation guarantees -/

theorem adjustToSegment_isInt16 (p : Int) (seg : Segment) : IsInt16 (adjustToSegment p seg) := by
  unfold adjustToSegment IsInt16
  simp only []
  split <;> (unfold toInt16; omega)

theorem Segment.validateAndUpdate_shaped (L : Nat) (s : Segment) :
    (s.validateAndUpdate L).Shaped L ∧
    (IsInt16 s.offset → IsInt16 (s.validateAndUpdate L).offset) := by
  unfold Segment.validateAndUpdate
  split
  · refine ⟨⟨?_, ?_, ?_, ?_⟩, fun _ => ?_⟩
    · decide
    · decide
    · intro h
      show (0 : Int) < (L : Int)
      omega
    · intro _; decide
    · decide
  · rename_i h
    simp only [Segment.update]
    split
    · refine ⟨⟨?_, ?_, ?_, ?_⟩, fun _ => ?_⟩
      · show 0 ≤ s.firstLed
        omega
      · show s.firstLed ≤ s.lastLed
        omega
      · intro _
        show s.lastLed < (L : Int)
        omega
      · intro _
        show (0 : Int) ≤ s.lastLed - s.firstLed + 1
        omega
      · show IsInt16 0
        decide
    · rename_i h2
      refine ⟨⟨?_, ?_, ?_, ?_⟩, fun ho => ho⟩
      · show 0 ≤ s.firstLed
        omega
      · show s.firstLed ≤ s.lastLed
        omega
      · intro _
        show s.lastLed < (L : Int)
        omega
      · intro hl
        show s.offset ≤ s.lastLed - s.firstLed + 1
        have hl' : s.lastLed < 32767 := hl
        have e : toInt16 (s.lastLed - s.firstLed + 1) = s.lastLed - s.firstLed + 1 :=
          toInt16_of_fits _ (by omega) (by omega)
        simp only [e] at h2
        omega

theorem validateAndUpdate_draws (L : Nat) (um : Usermod) (t : Now) :
    ∀ d ∈ (validateAndUpdate L um).draws t,
      d.1.Shaped L ∧ (um.InRange → IsInt16 d.1.offset) ∧ IsInt16 d.2 := by
  have s9 := Segment.validateAndUpdate_shaped L um.seconds9_Segment
  have s5 := Segment.validateAndUpdate_shaped L um.seconds5_Segment
  have m9 := Segment.validateAndUpdate_shaped L um.minutes9_Segment
  have m5 := Segment.validateAndUpdate_shaped L um.minutes5_Segment
  have hh := Segment.validateAndUpdate_shaped L um.hours12_Segment
  have q9 : (validateAndUpdate L um).seconds9_Segment.Shaped L ∧
      (um.InRange → IsInt16 (validateAndUpdate L um).seconds9_Segment.offset) :=
    ⟨s9.1, fun hin => s9.2 hin.1.2.2.1⟩
  have q5 : (validateAndUpdate L um).seconds5_Segment.Shaped L ∧
      (um.InRange → IsInt16 (validateAndUpdate L um).seconds5_Segment.offset) :=
    ⟨s5.1, fun hin => s5.2 hin.2.1.2.2.1⟩
  have r9 : (validateAndUpdate L um).minutes9_Segment.Shaped L ∧
      (um.InRange → IsInt16 (validateAndUpdate L um).minutes9_Segment.offset) :=
    ⟨m9.1, fun hin => m9.2 hin.2.2.1.2.2.1⟩
  have r5 : (validateAndUpdate L um).minutes5_Segment.Shaped L ∧
      (um.InRange → IsInt16 (validateAndUpdate L um).minutes5_Segment.offset) :=
    ⟨m5.1, fun hin => m5.2 hin.2.2.2.1.2.2.1⟩
  have qh : (validateAndUpdate L um).hours12_Segment.Shaped L ∧
      (um.InRange → IsInt16 (validateAndUpdate L um).hours12_Segment.offset) :=
    ⟨hh.1, fun hin => hh.2 hin.2.2.2.2.2.2.1⟩
  intro d hd
  unfold Usermod.draws at hd
  split at hd
  · simp only [List.mem_append, List.mem_singleton] at hd
    rcases hd with (((hd | hd) | hd) | hd) | hd
    · split at hd
      · rw [List.mem_singleton] at hd
        rw [hd]
        exact ⟨q9.1, q9.2, adjustToSegment_isInt16 _ _⟩
      · exact absurd hd (List.not_mem_nil _)
    · split at hd
      · rw [List.mem_singleton] at hd
        rw [hd]
        exact ⟨q5.1, q5.2, adjustToSegment_isInt16 _ _⟩
      · exact absurd hd (List.not_mem_nil _)
    · split at hd
      · rw [List.mem_singleton] at hd
        rw [hd]
        split
        · exact ⟨q5.1, q5.2, adjustToSegment_isInt16 _ _⟩
        · exact ⟨r9.1, r9.2, adjustToSegment_isInt16 _ _⟩
      · exact absurd hd (List.not_mem_nil _)
    · split at hd
      · rw [List.mem_singleton] at hd
        rw [hd]
        exact ⟨r5.1, r5.2, adjustToSegment_isInt16 _ _⟩
      · exact absurd hd (List.not_mem_nil _)
    · rw [hd]
      exact ⟨qh.1, qh.2, adjustToSegment_isInt16 _ _⟩
  · exact absurd hd (List.not_mem_nil _)

theorem drawInStrip_guard (um : Usermod) (L : Nat) (seg : Segment) (led : Int)
    (hs : seg.Shaped L) (hl : IsInt16 led) (h : um.DrawInStrip L seg led) :
    um.DrawGuard seg led := by
  obtain ⟨s1, s2, s3, s4⟩ := hs
  obtain ⟨a1, a2, a3, a4⟩ := h
  intro hm
  obtain ⟨b1, b2⟩ := a4 hm
  have := s4 b1
  exact ⟨b1, by omega, by omega, s1, by omega, hl,
    fun he => ⟨a1, a3 (Or.inr ⟨hm, he⟩)⟩⟩

theorem drawInStrip_hits (um : Usermod) (L : Nat) (seg : Segment) (led x : Int)
    (hs : seg.Shaped L) (hm : um.markingMode ≤ 1) (h : um.DrawInStrip L seg led)
    (hx : um.DrawHits seg led x) : 0 ≤ x ∧ x < (L : Int) := by
  obtain ⟨s1, s2, s3, s4⟩ := hs
  obtain ⟨a1, a2, a3, a4⟩ := h
  have hL : seg.lastLed < (L : Int) := s3 (by omega)
  unfold Usermod.DrawHits at hx
  by_cases h0 : um.markingMode = 0
  · rw [if_pos h0] at hx
    rcases hx with hx | ⟨he, -, hx⟩
    · rw [hx]
      unfold toUInt16
      omega
    · have h3 : led < 32767 := a3 (Or.inl ⟨h0, he⟩)
      rw [hx]
      unfold inc toInt16 toUInt16
      simp only []
      split <;> omega
  · rw [if_neg h0] at hx
    have h1 : um.markingMode = 1 := by omega
    obtain ⟨b1, b2⟩ := a4 h1
    have := s4 b1
    by_cases he : um.movingEffect = 0
    · rw [if_pos he] at hx
      have h3 : led < 32767 := a3 (Or.inr ⟨h1, he⟩)
      rw [toUInt16_of_fits led a1 (by omega)] at hx
      unfold loopHits at hx
      split at hx <;> omega
    · rw [if_neg he] at hx
      rcases hx with hx | hx
      · rw [hx]
        unfold toUInt16
        omega
      · unfold loopHits at hx
        split at hx <;> omega

theorem validateAndUpdate_mode_le (L : Nat) (um : Usermod) :
    (validateAndUpdate L um).markingMode ≤ 1 := by
  show (if um.markingMode > 1 then 0 else um.markingMode) ≤ 1
  split <;> omega

theorem drawEnds_guard (um : Usermod) (L : Nat) (seg : Segment) (led : Int)
    (hs : seg.Shaped L) (ho : IsInt16 seg.offset) (hl : IsInt16 led)
    (h : um.DrawEnds seg led) : um.DrawGuard seg led := by
  obtain ⟨s1, s2, s3, s4⟩ := hs
  unfold IsInt16 at ho
  intro hm
  obtain ⟨b1, b2⟩ := h hm
  have := s4 b1
  exact ⟨b1, by omega, by omega, s1, by omega, hl, b2⟩

theorem hours_mem_draws (um : Usermod) (t : Now) (hen : um.enabled = true)
    (hm : um.markingMode ≤ 1) :
    (um.hours12_Segment, adjustToSegment (hours12P t.hours) um.hours12_Segment)
      ∈ um.draws t := by
  unfold Usermod.draws
  rw [if_pos ⟨hen, hm⟩]
  exact List.mem_append_right _ (List.mem_singleton.2 rfl)

theorem hours_drawHits (um : Usermod) (seg : Segment) (led : Int)
    (hm : um.markingMode ≤ 1) (he : um.DrawEnds seg led)
    (h : um.markingMode = 1 → um.movingEffect = 0 →
      seg.firstLed + seg.offset ≤ led ∨ seg.firstLed ≤ led) :
    um.DrawHits seg led (toUInt16 led) := by
  unfold Usermod.DrawHits
  by_cases h0 : um.markingMode = 0
  · rw [if_pos h0]
    exact Or.inl rfl
  · rw [if_neg h0]
    have h1 : um.markingMode = 1 := by omega
    by_cases hf : um.movingEffect = 0
    · rw [if_pos hf]
      obtain ⟨-, e2⟩ := he h1
      obtain ⟨e3, e4⟩ := e2 hf
      have hu : toUInt16 led = led := toUInt16_of_fits led e3 (by omega)
      rw [hu]
      unfold loopHits
      split
      · omega
      · have := h h1 hf
        omega
    · rw [if_neg hf]
      exact Or.inl rfl

/-! ## C2: zero-progress suppression -/

theorem no_write_of_no_hit (um : Usermod) (t : Now) (seg : Segment) (ws : List Int)
    (hmem : ∀ k, k ∈ ws ↔ um.FrameHits t k)
    (h : ∀ x ∈ seg.leds, ¬ um.FrameHits t x) : ∀ k ∈ ws, ¬ seg.Covers k := by
  intro k hk hc
  exact h k ((Segment.mem_leds seg k).2 hc) ((hmem k).1 hk)

theorem drawHits_covers (um : Usermod) (seg : Segment) (led x : Int)
    (hm : um.markingMode ≤ 1) (hfl : 0 ≤ seg.firstLed) (hll : seg.lastLed < 32767)
    (hc : seg.Covers led) (ho : um.markingMode = 1 → 0 ≤ seg.offset)
    (hx : um.DrawHits seg led x) : seg.Covers x := by
  unfold Segment.Covers at hc ⊢
  have hu : toUInt16 led = led := toUInt16_of_fits led (by omega) (by omega)
  unfold Usermod.DrawHits at hx
  rw [hu] at hx
  by_cases h0 : um.markingMode = 0
  · rw [if_pos h0] at hx
    rcases hx with hx | ⟨-, -, hx⟩
    · omega
    · rw [hx]
      unfold inc toInt16 toUInt16
      simp only []
      split <;> omega
  · rw [if_neg h0] at hx
    have := ho (by omega)
    unfold loopHits at hx
    by_cases he : um.movingEffect = 0
    · rw [if_pos he] at hx
      split at hx <;> omega
    · rw [if_neg he] at hx
      rcases hx with hx | hx
      · omega
      · split at hx <;> omega

/-- The case by design: when every draw of the frame is handed an LED of its own segment
(`firstLed <= led <= lastLed < 32767`, in cumulative mode with a non-negative offset) and
these segments share no LED with `target`, no draw of the frame hits `target`. -/
theorem frameHits_misses (um : Usermod) (t : Now) (target : Segment)
    (hm : um.markingMode ≤ 1)
    (h : ∀ d ∈ um.draws t, 0 ≤ d.1.firstLed ∧ d.1.lastLed < 32767 ∧ d.1.Covers d.2 ∧
      (um.markingMode = 1 → 0 ≤ d.1.offset) ∧ d.1.Disjoint target) :
    ∀ x ∈ target.leds, ¬ um.FrameHits t x := by
  rintro x hx ⟨d, hd, hit⟩
  obtain ⟨h1, h2, h3, h4, h5⟩ := h d hd
  have c1 := drawHits_covers um d.1 d.2 x hm h1 h2 h3 h4 hit
  have c2 := (Segment.mem_leds target x).1 hx
  unfold Segment.Covers at c1 c2
  unfold Segment.Disjoint at h5
  omega

end AnalogSegmentsClock

namespace AnalogSegmentsClock

/-! ## C11: bounds after validation -/

/-- C11 as stated fails on a strip of 32768 LEDs with the segment `0..32767`: the bounds
are accepted, and `size` is the `int16_t` value of 32768, which is -32768. -/
theorem C11_size_int16_counterexample :
    (1 : Nat) ≤ 32768 ∧ (mkSegment 0 32767 0).InRange ∧
    ((mkSegment 0 32767 0).validateAndUpdate 32768).firstLed = 0 ∧
    ((mkSegment 0 32767 0).validateAndUpdate 32768).lastLed = 32767 ∧
    ((mkSegment 0 32767 0).validateAndUpdate 32768).size = -32768 ∧
    ((mkSegment 0 32767 0).validateAndUpdate 32768).size ≠
      ((mkSegment 0 32767 0).validateAndUpdate 32768).lastLed -
        ((mkSegment 0 32767 0).validateAndUpdate 32768).firstLed + 1 := by
  decide

/-- C11, amended: for every strip length `L >= 1` and every input segment, the segment
after `Segment::validateAndUpdate` satisfies `0 <= firstLed <= lastLed < L`; and
`size == lastLed - firstLed + 1` whenever `L <= 32767` or, more generally, whenever
`lastLed - firstLed + 1 <= 32767`. -/
theorem C11_validate_bounds_invariant (L : Nat) (s : Segment) (hL : 1 ≤ L) :
    0 ≤ (s.validateAndUpdate L).firstLed ∧
    (s.validateAndUpdate L).firstLed ≤ (s.validateAndUpdate L).lastLed ∧
    (s.validateAndUpdate L).lastLed < (L : Int) ∧
    ((L ≤ 32767 ∨
        (s.validateAndUpdate L).lastLed - (s.validateAndUpdate L).firstLed + 1 ≤ 32767) →
      (s.validateAndUpdate L).size =
        (s.validateAndUpdate L).lastLed - (s.validateAndUpdate L).firstLed + 1) := by
  by_cases h : s.firstLed < 0 ∨ s.firstLed ≥ (L : Int) ∨ s.lastLed < s.firstLed ∨
      s.lastLed ≥ (L : Int)
  · have e : s.validateAndUpdate L = Segment.default := by
      unfold Segment.validateAndUpdate
      rw [if_pos h]
    rw [e]
    refine ⟨by decide, by decide, ?_, fun _ => by decide⟩
    show (0 : Int) < (L : Int)
    omega
  · have e : (s.validateAndUpdate L).firstLed = s.firstLed ∧
        (s.validateAndUpdate L).lastLed = s.lastLed ∧
        (s.validateAndUpdate L).size = toInt16 (s.lastLed - s.firstLed + 1) := by
      unfold Segment.validateAndUpdate
      rw [if_neg h]
      simp only [Segment.update]
      split <;> exact ⟨rfl, rfl, rfl⟩
    obtain ⟨e1, e2, e3⟩ := e
    rw [e1, e2, e3]
    refine ⟨by omega, by omega, by omega, ?_⟩
    intro hs
    exact toInt16_of_fits _ (by omega) (by omega)

/-- C11 amended, on a strip of 40 LEDs: the segment `9..13` keeps its bounds and gets
size 5. -/
theorem C11_validate_bounds_invariant_witness :
    0 ≤ ((mkSegment 9 13 0).validateAndUpdate 40).firstLed ∧
    ((mkSegment 9 13 0).validateAndUpdate 40).firstLed ≤
      ((mkSegment 9 13 0).validateAndUpdate 40).lastLed ∧
    ((mkSegment 9 13 0).validateAndUpdate 40).lastLed < ((40 : Nat) : Int) ∧
    ((mkSegment 9 13 0).validateAndUpdate 40).size =
      ((mkSegment 9 13 0).validateAndUpdate 40).lastLed -
        ((mkSegment 9 13 0).validateAndUpdate 40).firstLed + 1 :=
  have h := C11_validate_bounds_invariant 40 (mkSegment 9 13 0) (by decide)
  ⟨h.1, h.2.1, h.2.2.1, h.2.2.2 (Or.inl (by decide))⟩

/-! ## C12: offset after validation -/

/-- C12: on a strip of 40 LEDs the segment `0..8` with offset -3 passes
`Segment::validateAndUpdate` unchanged: only `offset > size` is tested, so the offset
stays -3, below 0, and progress 1 is then mapped to index -3 outside the segment, which
reaches the strip as the `uint16_t` index 65533. An offset above `size` does become 0
(offset 10 on the same segment). -/
theorem C12_negative_offset_kept :
    (mkSegment 0 8 (-3)).InRange ∧
    ((mkSegment 0 8 (-3)).validateAndUpdate 40).offset = -3 ∧
    ((mkSegment 0 8 (-3)).validateAndUpdate 40).size = 9 ∧
    ¬ (0 ≤ ((mkSegment 0 8 (-3)).validateAndUpdate 40).offset) ∧
    adjustToSegment 1 ((mkSegment 0 8 (-3)).validateAndUpdate 40) = -3 ∧
    toUInt16 (adjustToSegment 1 ((mkSegment 0 8 (-3)).validateAndUpdate 40)) = 65533 ∧
    ((mkSegment 0 8 10).validateAndUpdate 40).offset = 0 := by
  decide

/-! ## C13: the reset segment -/

/-- C13 as stated fails: the segment `-1..8` is reset by validation against 40 LEDs, and
the reset segment has size 1 (the constructor runs `update()` on `firstLed = lastLed =
0`); it covers LED 0. -/
theorem C13_reset_size_counterexample :
    ((mkSegment (-1) 8 0).firstLed < 0) ∧
    (mkSegment (-1) 8 0).validateAndUpdate 40 = Segment.default ∧
    ((mkSegment (-1) 8 0).validateAndUpdate 40).size = 1 ∧
    ((mkSegment (-1) 8 0).validateAndUpdate 40).size ≠ 0 ∧
    ((mkSegment (-1) 8 0).validateAndUpdate 40).Covers 0 := by
  decide

/-- C13, amended: after `Segment::validateAndUpdate` takes the reset branch (out-of-range
bounds), the segment is the default one: `firstLed = lastLed = 0`, `offset = 0`,
`isHours = false` and `size = 1`; it covers exactly one LED, index 0. -/
theorem C13_reset_is_one_led (L : Nat) (s : Segment)
    (h : s.firstLed < 0 ∨ s.firstLed ≥ (L : Int) ∨ s.lastLed < s.firstLed ∨
      s.lastLed ≥ (L : Int)) :
    (s.validateAndUpdate L).firstLed = 0 ∧ (s.validateAndUpdate L).lastLed = 0 ∧
    (s.validateAndUpdate L).offset = 0 ∧ (s.validateAndUpdate L).isHours = false ∧
    (s.validateAndUpdate L).size = 1 ∧
    ∀ k : Int, (s.validateAndUpdate L).Covers k ↔ k = 0 := by
  have e : s.validateAndUpdate L = Segment.default := by
    unfold Segment.validateAndUpdate
    rw [if_pos h]
  rw [e]
  refine ⟨rfl, rfl, rfl, rfl, by decide, ?_⟩
  intro k
  show (0 ≤ k ∧ k ≤ 0) ↔ k = 0
  omega

/-- C13 amended, on the segment `5..50` against a strip of 40 LEDs: the reset segment
has size 1. -/
theorem C13_reset_is_one_led_witness :
    (mkSegment 5 50 0).lastLed ≥ ((40 : Nat) : Int) ∧
    ((mkSegment 5 50 0).validateAndUpdate 40).size = 1 :=
  ⟨by decide,
    (C13_reset_is_one_led 40 (mkSegment 5 50 0) (by decide)).2.2.2.2.1⟩

/-! ## C14: setPixelColor -/

/-- C14: `setPixelColor(n, c)` with `blendColors` off stores exactly `c` at `n`; with
`blendColors` on it stores `qadd32(old, c)`, whose four channels are
`min(255, existing + new)`, where `old` is the previous value of the pixel; in both
cases every pixel at an index other than `n` is unchanged. -/
theorem C14_setPixelColor_effect (st : Strip) (n : Int) (c : Nat) :
    (setPixelColor false n c st).pixels n = c ∧
    (setPixelColor true n c st).pixels n = qadd32 (st.pixels n) c ∧
    R ((setPixelColor true n c st).pixels n) = min 255 (R (st.pixels n) + R c) ∧
    G ((setPixelColor true n c st).pixels n) = min 255 (G (st.pixels n) + G c) ∧
    B ((setPixelColor true n c st).pixels n) = min 255 (B (st.pixels n) + B c) ∧
    W ((setPixelColor true n c st).pixels n) = min 255 (W (st.pixels n) + W c) ∧
    ∀ (blendColors : Bool) (k : Int), k ≠ n →
      (setPixelColor blendColors n c st).pixels k = st.pixels k := by
  have hon : (setPixelColor true n c st).pixels n = qadd32 (st.pixels n) c := by
    rw [setPixelColor_pixels]; simp
  refine ⟨?_, hon, ?_, ?_, ?_, ?_, ?_⟩
  · rw [setPixelColor_pixels]; simp
  · rw [hon, R_qadd32]
  · rw [hon, G_qadd32]
  · rw [hon, B_qadd32]
  · rw [hon, W_qadd32]
  · intro blendColors k hk
    rw [setPixelColor_pixels, if_neg hk]

/-- C14 with blending on a pixel holding 0xC80000, adding 0x640000: the red channel
saturates at 255 and pixel 4 is untouched by a write to pixel 3. -/
theorem C14_setPixelColor_effect_witness :
    R ((setPixelColor true 3 0x640000
      (Strip.black.setPixelColor 3 0xC80000)).pixels 3) = 255 ∧
    (setPixelColor true 3 0x640000 (Strip.black.setPixelColor 3 0xC80000)).pixels 4
      = (Strip.black.setPixelColor 3 0xC80000).pixels 4 := by
  have h := C14_setPixelColor_effect (Strip.black.setPixelColor 3 0xC80000) 3 0x640000
  refine ⟨?_, h.2.2.2.2.2.2 true 4 (by decide)⟩
  rw [h.2.2.1]
  decide

end AnalogSegmentsClock

namespace AnalogSegmentsClock

/-! ## C17: inc -/

/-- C18: on the non-hours segment `9..13` with offset 2, the last position (progress 5)
is mapped to LED 10; `movingEffectSineFade` compares `lastLed + offset = 15` with
`led = 10`, finds them different and writes the forward neighbour `inc(10, 1) = 11` as
well, which is the first position of the digit (progress 1). With offset 0 the
neighbour is not written. -/
theorem C18_fade_wraps_with_offset (host : Host) :
    (mkSegment 9 13 2).isHours = false ∧
    (0 ≤ (mkSegment 9 13 2).offset ∧ (mkSegment 9 13 2).offset ≤ (mkSegment 9 13 2).size) ∧
    adjustToSegment (mkSegment 9 13 2).size (mkSegment 9 13 2) = 10 ∧
    inc 10 1 (mkSegment 9 13 2) = 11 ∧
    adjustToSegment 1 (mkSegment 9 13 2) = 11 ∧
    (movingEffectSineFade host false
      (adjustToSegment (mkSegment 9 13 2).size (mkSegment 9 13 2)) 0 (mkSegment 9 13 2)
      0xFF0000 Strip.black).writes = [11, 10] ∧
    (movingEffectSineFade host false
      (adjustToSegment (mkSegment 9 13 0).size (mkSegment 9 13 0)) 0 (mkSegment 9 13 0)
      0xFF0000 Strip.black).writes = [13] := by
  refine ⟨by decide, by decide, by decide, by decide, by decide, rfl, rfl⟩

/-! ## C19: single/fade on the hours ring -/

/-- C19 as stated fails on the hours segment `32766..32767` at `led = 32767`: `inc`
computes `led + 1` in an `int16_t`, gets -32768, does not see it above `lastLed`, and
index 32768 is written instead of `firstLed`. -/
theorem C19_fade_int16_counterexample :
    ({ mkSegment 32766 32767 0 with isHours := true } : Segment).isHours = true ∧
    ({ mkSegment 32766 32767 0 with isHours := true } : Segment).firstLed ≤
      ({ mkSegment 32766 32767 0 with isHours := true } : Segment).lastLed ∧
    ({ mkSegment 32766 32767 0 with isHours := true } : Segment).Covers 32767 ∧
    (movingEffectSineFade nullHost false 32767 0
      { mkSegment 32766 32767 0 with isHours := true } 0x0000FF Strip.black).writes
        = [32768, 32767] ∧
    ¬ ({ mkSegment 32766 32767 0 with isHours := true } : Segment).Covers 32768 := by
  decide

/-- C19, amended: for the hours segment (`isHours` true) with
`0 <= firstLed <= lastLed < 32767` and every `led` in `[firstLed, lastLed]`,
`movingEffectSineFade` makes exactly two writes, first to `led` and then to its forward
neighbour in circular order (`led + 1` if `led < lastLed`, `firstLed` if
`led == lastLed`), and both indices lie in `[firstLed, lastLed]`. -/
theorem C19_fade_hours_ring (host : Host) (blend : Bool) (led : Int) (ms : Nat)
    (seg : Segment) (c : Nat) (st : Strip) (hh : seg.isHours = true)
    (h0 : 0 ≤ seg.firstLed) (hl : seg.lastLed < 32767) (hc : seg.Covers led) :
    (movingEffectSineFade host blend led ms seg c st).writes =
      (if led < seg.lastLed then led + 1 else seg.firstLed) :: led :: st.writes ∧
    seg.Covers led ∧ seg.Covers (if led < seg.lastLed then led + 1 else seg.firstLed) := by
  have hc' := hc
  obtain ⟨c1, c2⟩ := hc'
  have hu : toUInt16 led = led := toUInt16_of_fits _ (by omega) (by omega)
  have hinc : inc led 1 seg = if led < seg.lastLed then led + 1 else seg.firstLed := by
    unfold inc
    simp only []
    rw [toInt16_of_fits (led + 1) (by omega) (by omega)]
    by_cases h : led < seg.lastLed
    · rw [if_neg (by omega), if_pos h]
    · rw [if_pos (by omega), if_neg h, toInt16_of_fits _ (by omega) (by omega)]
      omega
  have hnext : seg.Covers (if led < seg.lastLed then led + 1 else seg.firstLed) := by
    unfold Segment.Covers
    split <;> omega
  have hui : toUInt16 (inc led 1 seg) = inc led 1 seg := by
    rw [hinc]
    obtain ⟨n1, n2⟩ := hnext
    exact toUInt16_of_fits _ (by omega) (by omega)
  refine ⟨?_, hc, hnext⟩
  unfold movingEffectSineFade
  simp only []
  rw [if_pos (Or.inl hh), setPixelColor_writes, setPixelColor_writes, hui, hinc, hu]

/-- C19 amended, on the hours segment `28..39` at its last LED: the fade writes LED 39
and then LED 28. -/
theorem C19_fade_hours_ring_witness :
    (movingEffectSineFade nullHost false 39 500 (defaultUsermod 0 1).hours12_Segment
      0x0000FF Strip.black).writes = 28 :: 39 :: Strip.black.writes :=
  (C19_fade_hours_ring nullHost false 39 500 (defaultUsermod 0 1).hours12_Segment 0x0000FF
    Strip.black (by decide) (by decide) (by decide) (by decide)).1

end AnalogSegmentsClock

namespace AnalogSegmentsClock

/-! ## The bar of the cumulative strategies -/

theorem length_of_nodup_interval (ws : List Int) (a b : Int) (hnd : ws.Nodup)
    (hmem : ∀ k, k ∈ ws ↔ a ≤ k ∧ k ≤ b) : (ws.length : Int) = max 0 (b + 1 - a) := by
  have e : ws.toFinset = Finset.Icc a b := by
    ext k
    simp [hmem]
  have hcard := List.toFinset_card_of_nodup hnd
  rw [e, Int.card_Icc] at hcard
  omega

theorem emod_below (x n : Int) (h0 : 0 ≤ x) (h1 : x < n) : x % n = x :=
  Int.emod_eq_of_lt h0 h1

theorem emod_wrap_once (x n : Int) (h0 : n ≤ x) (h1 : x < 2 * n) : x % n = x - n := by
  have e : x = (x - n) + n * 1 := by ring
  rw [e, Int.add_mul_emod_self_left]
  have e2 : x - n + n * 1 - n = x - n := by ring
  rw [e2]
  exact Int.emod_eq_of_lt (by omega) (by omega)

theorem forSetPixelColor_once (blend : Bool) (c : Nat) (b : Int) (hb : b < 32767)
    (fuel : Nat) (i : Int) (st : Strip) (hi0 : 0 ≤ i) (hi1 : i ≤ 32767)
    (hfuel : (b + 1 - i).toNat < fuel) :
    ∃ st' ws, forSetPixelColor blend c b fuel i st = Outcome.returned st' ∧
      st'.writes = ws ++ st.writes ∧ ws.Nodup ∧ (ws.length : Int) = max 0 (b + 1 - i) ∧
      (∀ k, k ∈ ws ↔ i ≤ k ∧ k ≤ b) ∧
      ∀ k, st'.pixels k =
        if i ≤ k ∧ k ≤ b then (if blend then qadd32 (st.pixels k) c else c)
        else st.pixels k := by
  obtain ⟨st', ws, hrun, hw, -, hnd, hmem, hpx⟩ :=
    forSetPixelColor_returns blend c b hb fuel i st hi0 hi1 hfuel
  exact ⟨st', ws, hrun, hw, hnd, length_of_nodup_interval ws i b hnd hmem, hmem, hpx⟩

theorem forSetPixelColor_twice (blend : Bool) (c : Nat) (b1 b2 : Int) (hb1 : b1 < 32767)
    (hb2 : b2 < 32767) (fuel : Nat) (i1 i2 : Int) (st : Strip) (h1 : 0 ≤ i1)
    (h1' : i1 ≤ 32767) (h2 : 0 ≤ i2) (h2' : i2 ≤ 32767) (hdis : b2 < i1)
    (hf1 : (b1 + 1 - i1).toNat < fuel) (hf2 : (b2 + 1 - i2).toNat < fuel) :
    ∃ st' ws,
      (forSetPixelColor blend c b1 fuel i1 st).andThen
        (fun st1 => forSetPixelColor blend c b2 fuel i2 st1) = Outcome.returned st' ∧
      st'.writes = ws ++ st.writes ∧ ws.Nodup ∧
      (ws.length : Int) = max 0 (b1 + 1 - i1) + max 0 (b2 + 1 - i2) ∧
      (∀ k, k ∈ ws ↔ (i1 ≤ k ∧ k ≤ b1) ∨ (i2 ≤ k ∧ k ≤ b2)) ∧
      ∀ k, st'.pixels k =
        if (i1 ≤ k ∧ k ≤ b1) ∨ (i2 ≤ k ∧ k ≤ b2) then
          (if blend then qadd32 (st.pixels k) c else c)
        else st.pixels k := by
  obtain ⟨st1, ws1, hrun1, hw1, hnd1, hlen1, hmem1, hpx1⟩ :=
    forSetPixelColor_once blend c b1 hb1 fuel i1 st h1 h1' hf1
  obtain ⟨st2, ws2, hrun2, hw2, hnd2, hlen2, hmem2, hpx2⟩ :=
    forSetPixelColor_once blend c b2 hb2 fuel i2 st1 h2 h2' hf2
  refine ⟨st2, ws2 ++ ws1, ?_, ?_, ?_, ?_, ?_, ?_⟩
  · rw [hrun1]; exact hrun2
  · rw [hw2, hw1, List.append_assoc]
  · rw [List.nodup_append]
    refine ⟨hnd2, hnd1, ?_⟩
    intro a ha1 ha2
    have u := (hmem2 a).1 ha1
    have v := (hmem1 a).1 ha2
    omega
  · rw [List.length_append]
    push_cast
    omega
  · intro k
    rw [List.mem_append, hmem1, hmem2]
    omega
  · intro k
    rw [hpx2, hpx1]
    by_cases hk2 : i2 ≤ k ∧ k ≤ b2
    · have hk1 : ¬ (i1 ≤ k ∧ k ≤ b1) := by omega
      simp only [hk2, hk1, and_self, if_true, if_false, or_true, false_or]
    · simp only [hk2, if_false, or_false]

/-! ## C16: the length of the cumulative bar -/

/-- C16 as stated fails on the one-LED segment `32767..32767` (offset 0) with progress 1:
instead of the single index `firstLed + ((0 + 0) mod 1) = 32767` the call writes 32767
and then 32768, because the `int16_t` loop counter can never exceed the bound 32767. -/
theorem C16_bar_int16_counterexample :
    (1 : Int) ≤ (mkSegment 32767 32767 0).size ∧
    (setPixelColorCumulative false 2
      (toUInt16 (adjustToSegment 1 (mkSegment 32767 32767 0))) 0x00FF00
      (mkSegment 32767 32767 0) Strip.black).strip.writes = [32768, 32767] ∧
    (setPixelColorCumulative false 2
      (toUInt16 (adjustToSegment 1 (mkSegment 32767 32767 0))) 0x00FF00
      (mkSegment 32767 32767 0) Strip.black).finished = false ∧
    (mkSegment 32767 32767 0).firstLed + (0 + 0) % (mkSegment 32767 32767 0).size
      = 32767 := by
  decide

/-- C16, amended: for every segment with `0 <= firstLed <= lastLed < 32767`,
`size = lastLed - firstLed + 1`, `0 <= offset <= size`, and every progress `p` with
`1 <= p <= size` and `firstLed + offset + p - 1 <= 32767`, the call
`setPixelColorCumulative(adjustToSegment(p, segment), c, segment)` returns and writes
exactly `p` distinct LED indices, each exactly once, namely
`firstLed + ((offset + k) mod size)` for `0 <= k < p`. -/
theorem C16_cumulative_bar (blend : Bool) (c : Nat) (seg : Segment) (st : Strip)
    (fuel : Nat) (p : Int) (hf : 0 ≤ seg.firstLed) (hl : seg.firstLed ≤ seg.lastLed)
    (hl2 : seg.lastLed < 32767) (hs : seg.size = seg.lastLed - seg.firstLed + 1)
    (ho0 : 0 ≤ seg.offset) (ho1 : seg.offset ≤ seg.size) (hp1 : 1 ≤ p) (hp2 : p ≤ seg.size)
    (hov : seg.firstLed + seg.offset + p - 1 ≤ 32767) (hfuel : seg.size < (fuel : Int)) :
    ∃ st' ws,
      setPixelColorCumulative blend fuel (toUInt16 (adjustToSegment p seg)) c seg st
        = Outcome.returned st' ∧
      st'.writes = ws ++ st.writes ∧ ws.Nodup ∧ (ws.length : Int) = p ∧
      ∀ k, k ∈ ws ↔
        ∃ j : Int, 0 ≤ j ∧ j < p ∧ k = seg.firstLed + (seg.offset + j) % seg.size := by
  have hadj := adjustToSegment_eq seg p hf hl (by omega) hov
  unfold setPixelColorCumulative
  have e16 : toInt16 (seg.firstLed + seg.offset) = seg.firstLed + seg.offset :=
    toInt16_of_fits _ (by omega) (by omega)
  have e16f : toInt16 seg.firstLed = seg.firstLed := toInt16_of_fits _ (by omega) (by omega)
  rw [e16, e16f]
  by_cases h : seg.firstLed + seg.offset + p - 1 > seg.lastLed
  · rw [if_pos h] at hadj
    have hled : adjustToSegment p seg = seg.firstLed + (seg.offset + p - 1 - seg.size) := by
      omega
    rw [hled, toUInt16_of_fits _ (by omega) (by omega), if_neg (by omega)]
    obtain ⟨st', ws, hrun, hw, hnd, hlen, hmem, -⟩ :=
      forSetPixelColor_twice blend c seg.lastLed
        (seg.firstLed + (seg.offset + p - 1 - seg.size)) hl2 (by omega) fuel
        (seg.firstLed + seg.offset) seg.firstLed st (by omega) (by omega) (by omega)
        (by omega) (by omega) (by omega) (by omega)
    refine ⟨st', ws, hrun, hw, hnd, by omega, ?_⟩
    intro k
    rw [hmem]
    constructor
    · rintro (⟨k1, k2⟩ | ⟨k1, k2⟩)
      · refine ⟨k - seg.firstLed - seg.offset, by omega, by omega, ?_⟩
        rw [emod_below _ _ (by omega) (by omega)]
        omega
      · refine ⟨k - seg.firstLed - seg.offset + seg.size, by omega, by omega, ?_⟩
        rw [emod_wrap_once _ _ (by omega) (by omega)]
        omega
    · rintro ⟨j, j0, j1, rfl⟩
      by_cases hj : seg.offset + j < seg.size
      · rw [emod_below _ _ (by omega) hj]
        left; omega
      · rw [emod_wrap_once _ _ (by omega) (by omega)]
        right; omega
  · rw [if_neg h] at hadj
    rw [hadj, toUInt16_of_fits _ (by omega) (by omega), if_pos (by omega)]
    obtain ⟨st', ws, hrun, hw, hnd, hlen, hmem, -⟩ :=
      forSetPixelColor_once blend c (seg.firstLed + seg.offset + p - 1) (by omega) fuel
        (seg.firstLed + seg.offset) st (by omega) (by omega) (by omega)
    refine ⟨st', ws, hrun, hw, hnd, by omega, ?_⟩
    intro k
    rw [hmem]
    constructor
    · rintro ⟨k1, k2⟩
      refine ⟨k - seg.firstLed - seg.offset, by omega, by omega, ?_⟩
      rw [emod_below _ _ (by omega) (by omega)]
      omega
    · rintro ⟨j, j0, j1, rfl⟩
      rw [emod_below _ _ (by omega) (by omega)]
      omega

/-- C16 amended, on the segment `9..13` with offset 3 and progress 4: the bar returns and
has exactly 4 distinct LEDs. -/
theorem C16_cumulative_bar_witness :
    ∃ st' ws,
      setPixelColorCumulative false 6 (toUInt16 (adjustToSegment 4 (mkSegment 9 13 3)))
        0x00FF00 (mkSegment 9 13 3) Strip.black = Outcome.returned st' ∧
      st'.writes = ws ++ Strip.black.writes ∧ ws.Nodup ∧ (ws.length : Int) = 4 ∧
      ∀ k, k ∈ ws ↔
        ∃ j : Int, 0 ≤ j ∧ j < 4 ∧
          k = (mkSegment 9 13 3).firstLed +
            ((mkSegment 9 13 3).offset + j) % (mkSegment 9 13 3).size :=
  C16_cumulative_bar false 0x00FF00 (mkSegment 9 13 3) Strip.black 6 4 (by decide)
    (by decide) (by decide) (by decide) (by decide) (by decide) (by decide) (by decide)
    (by decide) (by decide)

end AnalogSegmentsClock

namespace AnalogSegmentsClock

/-! ## C20: cumulative/fade against cumulative/solid -/

/-- C20 as stated fails on the one-LED segment `32767..32767` (offset 0) with progress 1:
the fade variant returns after the single write 32767, while the solid variant never
leaves its loop (`i <= 32767` holds for every `int16_t`) and also writes index 32768. -/
theorem C20_fade_solid_int16_counterexample :
    (1 : Int) ≤ (mkSegment 32767 32767 0).size ∧
    (movingEffectSineFadeCumulative nullHost false 2
      (adjustToSegment 1 (mkSegment 32767 32767 0)) 0 (mkSegment 32767 32767 0) 0x00FF00
      Strip.black).finished = true ∧
    (movingEffectSineFadeCumulative nullHost false 2
      (adjustToSegment 1 (mkSegment 32767 32767 0)) 0 (mkSegment 32767 32767 0) 0x00FF00
      Strip.black).strip.writes = [32767] ∧
    (setPixelColorCumulative false 2
      (toUInt16 (adjustToSegment 1 (mkSegment 32767 32767 0))) 0x00FF00
      (mkSegment 32767 32767 0) Strip.black).finished = false ∧
    (32768 : Int) ∈ (setPixelColorCumulative false 2
      (toUInt16 (adjustToSegment 1 (mkSegment 32767 32767 0))) 0x00FF00
      (mkSegment 32767 32767 0) Strip.black).strip.writes := by
  decide

/-- C20, amended: for every segment with `0 <= firstLed <= lastLed < 32767`,
`size = lastLed - firstLed + 1`, `0 <= offset <= size`, every progress `p` with
`1 <= p <= size` and `firstLed + offset + p - 1 <= 32767`, `led = adjustToSegment(p,
segment)`, every colour, time, blend setting and initial buffer:
`movingEffectSineFadeCumulative` and `setPixelColorCumulative` both return, they write
exactly the same set of pixel indices, and the two resulting buffers agree at every
index other than `led`, where the solid variant composes `c` and the fade variant
composes the sine-scaled, gamma-corrected colour. -/
theorem C20_fade_bar_matches_solid (host : Host) (blend : Bool) (c : Nat) (seg : Segment)
    (st : Strip) (fuel : Nat) (p : Int) (ms : Nat) (hf : 0 ≤ seg.firstLed)
    (hl : seg.firstLed ≤ seg.lastLed) (hl2 : seg.lastLed < 32767)
    (hs : seg.size = seg.lastLed - seg.firstLed + 1) (ho0 : 0 ≤ seg.offset)
    (ho1 : seg.offset ≤ seg.size) (hp1 : 1 ≤ p) (hp2 : p ≤ seg.size)
    (hov : seg.firstLed + seg.offset + p - 1 ≤ 32767) (hfuel : seg.size < (fuel : Int)) :
    ∃ stS stF wsS wsF,
      setPixelColorCumulative blend fuel (toUInt16 (adjustToSegment p seg)) c seg st
        = Outcome.returned stS ∧
      movingEffectSineFadeCumulative host blend fuel (adjustToSegment p seg) ms seg c st
        = Outcome.returned stF ∧
      stS.writes = wsS ++ st.writes ∧ stF.writes = wsF ++ st.writes ∧
      (∀ k, k ∈ wsS ↔ k ∈ wsF) ∧
      (∀ k, k ≠ adjustToSegment p seg → stS.pixels k = stF.pixels k) ∧
      stS.pixels (adjustToSegment p seg) =
        (if blend then qadd32 (st.pixels (adjustToSegment p seg)) c else c) ∧
      stF.pixels (adjustToSegment p seg) =
        (if blend then
          qadd32 (st.pixels (adjustToSegment p seg))
            (host.gamma32 (scale32 host c
              (toUInt8 (((host.sin8_t (ms % 1000 * 64 / 1000) : Int) - 128) * 2))))
        else
          host.gamma32 (scale32 host c
            (toUInt8 (((host.sin8_t (ms % 1000 * 64 / 1000) : Int) - 128) * 2)))) := by
  have hadj := adjustToSegment_eq seg p hf hl (by omega) hov
  have e16 : toInt16 (seg.firstLed + seg.offset) = seg.firstLed + seg.offset :=
    toInt16_of_fits _ (by omega) (by omega)
  have e16f : toInt16 seg.firstLed = seg.firstLed := toInt16_of_fits _ (by omega) (by omega)
  generalize hX : host.gamma32 (scale32 host c
    (toUInt8 (((host.sin8_t (ms % 1000 * 64 / 1000) : Int) - 128) * 2))) = X
  by_cases h : seg.firstLed + seg.offset + p - 1 > seg.lastLed
  · rw [if_pos h] at hadj
    have hled : adjustToSegment p seg = seg.firstLed + (seg.offset + p - 1 - seg.size) := by
      omega
    generalize adjustToSegment p seg = led at hled ⊢
    have hu : toUInt16 led = led := toUInt16_of_fits _ (by omega) (by omega)
    obtain ⟨stS, wsS, hrunS, hwS, -, -, hmemS, hpxS⟩ :=
      forSetPixelColor_twice blend c seg.lastLed led hl2 (by omega) fuel
        (seg.firstLed + seg.offset) seg.firstLed st (by omega) (by omega) (by omega)
        (by omega) (by omega) (by omega) (by omega)
    obtain ⟨st2, ws2, hrun2, hw2, -, -, hmem2, hpx2⟩ :=
      forSetPixelColor_twice blend c seg.lastLed (led - 1) hl2 (by omega) fuel
        (seg.firstLed + seg.offset) seg.firstLed st (by omega) (by omega) (by omega)
        (by omega) (by omega) (by omega) (by omega)
    refine ⟨stS, setPixelColor blend led X st2, wsS, led :: ws2, ?_, ?_, hwS, ?_, ?_, ?_, ?_,
      ?_⟩
    · unfold setPixelColorCumulative
      rw [e16, e16f, hu, if_neg (by omega)]
      exact hrunS
    · unfold movingEffectSineFadeCumulative
      simp only []
      rw [e16, e16f, hu, if_neg (by omega), hrun2, hX]
      rfl
    · rw [setPixelColor_writes, hw2]; rfl
    · intro k
      rw [hmemS, List.mem_cons, hmem2]
      omega
    · intro k hk
      rw [hpxS, setPixelColor_pixels, if_neg hk, hpx2]
      have e : ((seg.firstLed + seg.offset ≤ k ∧ k ≤ seg.lastLed) ∨
          (seg.firstLed ≤ k ∧ k ≤ led)) ↔
          ((seg.firstLed + seg.offset ≤ k ∧ k ≤ seg.lastLed) ∨
          (seg.firstLed ≤ k ∧ k ≤ led - 1)) := by omega
      simp only [e]
    · rw [hpxS, if_pos (Or.inr ⟨by omega, le_refl _⟩)]
    · have e1 : (setPixelColor blend led X st2).pixels led =
          if blend then qadd32 (st2.pixels led) X else X := by
        rw [setPixelColor_pixels]; simp
      have e2 : st2.pixels led = st.pixels led := by rw [hpx2, if_neg (by omega)]
      rw [e1, e2]
  · rw [if_neg h] at hadj
    generalize adjustToSegment p seg = led at hadj ⊢
    have hu : toUInt16 led = led := toUInt16_of_fits _ (by omega) (by omega)
    obtain ⟨stS, wsS, hrunS, hwS, -, -, hmemS, hpxS⟩ :=
      forSetPixelColor_once blend c led (by omega) fuel (seg.firstLed + seg.offset) st
        (by omega) (by omega) (by omega)
    obtain ⟨st2, ws2, hrun2, hw2, -, -, hmem2, hpx2⟩ :=
      forSetPixelColor_once blend c (led - 1) (by omega) fuel (seg.firstLed + seg.offset) st
        (by omega) (by omega) (by omega)
    refine ⟨stS, setPixelColor blend led X st2, wsS, led :: ws2, ?_, ?_, hwS, ?_, ?_, ?_, ?_,
      ?_⟩
    · unfold setPixelColorCumulative
      rw [e16, hu, if_pos (by omega)]
      exact hrunS
    · unfold movingEffectSineFadeCumulative
      simp only []
      rw [e16, hu, if_pos (by omega), hrun2, hX]
      rfl
    · rw [setPixelColor_writes, hw2]; rfl
    · intro k
      rw [hmemS, List.mem_cons, hmem2]
      omega
    · intro k hk
      rw [hpxS, setPixelColor_pixels, if_neg hk, hpx2]
      have e : (seg.firstLed + seg.offset ≤ k ∧ k ≤ led) ↔
          (seg.firstLed + seg.offset ≤ k ∧ k ≤ led - 1) := by omega
      simp only [e]
    · rw [hpxS, if_pos ⟨by omega, le_refl _⟩]
    · have e1 : (setPixelColor blend led X st2).pixels led =
          if blend then qadd32 (st2.pixels led) X else X := by
        rw [setPixelColor_pixels]; simp
      have e2 : st2.pixels led = st.pixels led := by rw [hpx2, if_neg (by omega)]
      rw [e1, e2]

/-- C20 amended, on the segment `9..13` with offset 3 and progress 4 (LED 10): both
variants return and write the same indices. -/
theorem C20_fade_bar_matches_solid_witness :
    ∃ stS stF wsS wsF,
      setPixelColorCumulative false 6 (toUInt16 (adjustToSegment 4 (mkSegment 9 13 3)))
        0x00FF00 (mkSegment 9 13 3) Strip.black = Outcome.returned stS ∧
      movingEffectSineFadeCumulative nullHost false 6 (adjustToSegment 4 (mkSegment 9 13 3))
        500 (mkSegment 9 13 3) 0x00FF00 Strip.black = Outcome.returned stF ∧
      stS.writes = wsS ++ Strip.black.writes ∧ stF.writes = wsF ++ Strip.black.writes ∧
      (∀ k, k ∈ wsS ↔ k ∈ wsF) ∧
      (∀ k, k ≠ adjustToSegment 4 (mkSegment 9 13 3) → stS.pixels k = stF.pixels k) := by
  obtain ⟨stS, stF, wsS, wsF, h1, h2, h3, h4, h5, h6, -, -⟩ :=
    C20_fade_bar_matches_solid nullHost false 0x00FF00 (mkSegment 9 13 3) Strip.black 6 4
      500 (by decide) (by decide) (by decide) (by decide) (by decide) (by decide)
      (by decide) (by decide) (by decide) (by decide)
  exact ⟨stS, stF, wsS, wsF, h1, h2, h3, h4, h5, h6⟩

end AnalogSegmentsClock

namespace AnalogSegmentsClock

/-! ## Colour strings -/

theorem hexDigit_facts (ch : Char) (h : isHexDigit ch = true) :
    isSpaceC ch = false ∧ ch ≠ '-' ∧ ch ≠ '+' ∧ ch ≠ 'x' ∧ ch ≠ 'X' ∧ ch.toNat ≠ 0 := by
  refine ⟨?_, ?_, ?_, ?_, ?_, ?_⟩
  · unfold isHexDigit hexDigitValue at h
    unfold isSpaceC
    split at h
    · rename_i h1; simp; omega
    · split at h
      · rename_i h1 h2; simp; omega
      · split at h
        · rename_i h1 h2 h3; simp; omega
        · simp at h
  · rintro rfl; exact absurd h (by decide)
  · rintro rfl; exact absurd h (by decide)
  · rintro rfl; exact absurd h (by decide)
  · rintro rfl; exact absurd h (by decide)
  · unfold isHexDigit hexDigitValue at h
    split at h
    · omega
    · split at h
      · omega
      · split at h
        · omega
        · simp at h

theorem scanHex_all_hex (l : List Char) (h : ∀ ch ∈ l, isHexDigit ch = true) (acc : Nat) :
    scanHex l acc =
      (l.foldl (fun a ch => a * 16 + (hexDigitValue ch).getD 0) acc, []) := by
  induction l generalizing acc with
  | nil => rfl
  | cons ch rest ih =>
    have hch := h ch (List.mem_cons_self _ _)
    unfold isHexDigit at hch
    obtain ⟨d, hd⟩ := Option.isSome_iff_exists.1 hch
    unfold scanHex
    simp only [hd, List.foldl_cons, Option.getD_some]
    exact ih (fun c hc => h c (List.mem_cons_of_mem _ hc)) _

theorem scanHex_split (l : List Char) (acc : Nat) :
    ∃ dg, l = dg ++ (scanHex l acc).2 ∧ ∀ ch ∈ dg, isHexDigit ch = true := by
  induction l generalizing acc with
  | nil => exact ⟨[], rfl, by simp⟩
  | cons ch rest ih =>
    unfold scanHex
    cases hd : hexDigitValue ch with
    | none => exact ⟨[], rfl, by simp⟩
    | some d =>
      obtain ⟨dg, h1, h2⟩ := ih (acc * 16 + d)
      refine ⟨ch :: dg, ?_, ?_⟩
      · simp only [List.cons_append]
        rw [← h1]
      · intro c hc
        rcases List.mem_cons.1 hc with rfl | hc
        · unfold isHexDigit; rw [hd]; rfl
        · exact h2 c hc

theorem skipSign_split (t : List Char) :
    ∃ sg, t = sg ++ skipSign t ∧ (sg = [] ∨ sg = ['+'] ∨ sg = ['-']) := by
  cases t with
  | nil => exact ⟨[], rfl, Or.inl rfl⟩
  | cons ch r =>
    dsimp only [skipSign]
    by_cases h : ch = '-' ∨ ch = '+'
    · rw [if_pos h]
      rcases h with rfl | rfl
      · exact ⟨['-'], rfl, Or.inr (Or.inr rfl)⟩
      · exact ⟨['+'], rfl, Or.inr (Or.inl rfl)⟩
    · rw [if_neg h]
      exact ⟨[], rfl, Or.inl rfl⟩

theorem skipHexPrefix_split (u : List Char) :
    ∃ px, u = px ++ skipHexPrefix u ∧ (px = [] ∨ px = ['0', 'x'] ∨ px = ['0', 'X']) := by
  unfold skipHexPrefix
  split
  · rename_i z x d r
    by_cases h : z = '0' ∧ (x = 'x' ∨ x = 'X') ∧ isHexDigit d = true
    · rw [if_pos h]
      obtain ⟨rfl, hx, -⟩ := h
      rcases hx with rfl | rfl
      · exact ⟨['0', 'x'], rfl, Or.inr (Or.inl rfl)⟩
      · exact ⟨['0', 'X'], rfl, Or.inr (Or.inr rfl)⟩
    · rw [if_neg h]
      exact ⟨[], rfl, Or.inl rfl⟩
  · exact ⟨[], rfl, Or.inl rfl⟩

theorem skipSign_of_hex (d : Char) (r : List Char) (h : isHexDigit d = true) :
    skipSign (d :: r) = d :: r ∧ hasMinus (d :: r) = false := by
  obtain ⟨-, h1, h2, -, -, -⟩ := hexDigit_facts d h
  dsimp only [skipSign, hasMinus]
  constructor
  · rw [if_neg (by rintro (h | h) <;> contradiction)]
  · simp [h1]

theorem skipHexPrefix_of_hex (l : List Char) (h : ∀ ch ∈ l, isHexDigit ch = true) :
    skipHexPrefix l = l := by
  unfold skipHexPrefix
  split
  · rename_i z x d r
    obtain ⟨-, -, -, h1, h2, -⟩ := hexDigit_facts x (h x (by simp))
    rw [if_neg]
    rintro ⟨-, hx | hx, -⟩ <;> contradiction
  · rfl

theorem dropWhile_spaces (sp rest : List Char) (hsp : ∀ ch ∈ sp, isSpaceC ch = true)
    (hrest : ∀ d r, rest = d :: r → isSpaceC d = false) :
    (sp ++ rest).dropWhile isSpaceC = rest := by
  induction sp with
  | nil =>
    cases rest with
    | nil => rfl
    | cons d r =>
      have := hrest d r rfl
      simp [List.dropWhile, this]
  | cons a sp ih =>
    have ha := hsp a (List.mem_cons_self _ _)
    simp only [List.cons_append, List.dropWhile, ha]
    exact ih (fun c hc => hsp c (List.mem_cons_of_mem _ hc))

theorem cStr_of_no_nul (s : String) (h : ∀ ch ∈ s.toList, ch.toNat ≠ 0) :
    cStr s = s.toList := by
  unfold cStr
  rw [List.takeWhile_eq_self_iff]
  intro ch hch
  simp [h ch hch]

theorem strtoull16_of_digits (sp t : List Char) (d : Char) (r : List Char)
    (hsp : ∀ ch ∈ sp, isSpaceC ch = true)
    (ht : ∀ c r', t = c :: r' → isSpaceC c = false)
    (hw : skipHexPrefix (skipSign t) = d :: r)
    (hd : ∀ ch ∈ d :: r, isHexDigit ch = true) :
    (strtoull16 (sp ++ t)).2 = [] := by
  unfold strtoull16
  simp only []
  rw [dropWhile_spaces sp t hsp ht, hw]
  simp only []
  rw [if_pos (hd d (List.mem_cons_self _ _)), scanHex_all_hex (d :: r) hd 0]

end AnalogSegmentsClock

namespace AnalogSegmentsClock

theorem hexDigitValue_le (ch : Char) : (hexDigitValue ch).getD 0 ≤ 15 := by
  unfold hexDigitValue
  split
  · simp only [Option.getD_some]; omega
  · split
    · simp only [Option.getD_some]; omega
    · split
      · simp only [Option.getD_some]; omega
      · simp

theorem foldl_hex_lt (l : List Char) (acc : Nat) :
    l.foldl (fun a ch => a * 16 + (hexDigitValue ch).getD 0) acc
      < (acc + 1) * 16 ^ l.length := by
  induction l generalizing acc with
  | nil => simp
  | cons ch rest ih =>
    simp only [List.foldl_cons, List.length_cons]
    have h1 := ih (acc * 16 + (hexDigitValue ch).getD 0)
    have h2 := hexDigitValue_le ch
    have h3 : (acc * 16 + (hexDigitValue ch).getD 0 + 1) * 16 ^ rest.length
        ≤ ((acc + 1) * 16) * 16 ^ rest.length :=
      Nat.mul_le_mul_right _ (by omega)
    have h4 : ((acc + 1) * 16) * 16 ^ rest.length = (acc + 1) * 16 ^ (rest.length + 1) := by
      rw [pow_succ]; ring
    omega

theorem hexValue_lt (l : List Char) (h : l.length ≤ 8) : hexValue l < 4294967296 := by
  have h1 := foldl_hex_lt l 0
  have h2 : 16 ^ l.length ≤ 16 ^ 8 := Nat.pow_le_pow_right (by decide) h
  have h3 : (16 : Nat) ^ 8 = 4294967296 := by norm_num
  unfold hexValue
  omega

theorem strtoull16_hex (l : List Char) (hne : l ≠ [])
    (hall : ∀ ch ∈ l, isHexDigit ch = true) :
    strtoull16 l = (min (hexValue l) ullongMax, []) := by
  cases l with
  | nil => exact absurd rfl hne
  | cons d r =>
    have hd := hall d (List.mem_cons_self _ _)
    obtain ⟨hsp, -⟩ := hexDigit_facts d hd
    obtain ⟨hs1, hs2⟩ := skipSign_of_hex d r hd
    have hdrop : (d :: r).dropWhile isSpaceC = d :: r := by
      simp [List.dropWhile, hsp]
    unfold strtoull16
    simp only []
    rw [hdrop, hs1, hs2, skipHexPrefix_of_hex (d :: r) hall]
    simp only []
    rw [if_pos hd, scanHex_all_hex (d :: r) hall 0]
    simp only [Bool.false_eq_true, if_false]
    show ((if hexValue (d :: r) > ullongMax then ullongMax else hexValue (d :: r)), _) = _
    congr 1
    split <;> omega

/-! ## C15: hexStringToColor -/

/-- C15 as stated fails on the string `0x1F`: it contains the character `x`, which is not
a hexadecimal digit, yet `strtoull` reads it completely and `hexStringToColor` returns
true with `c = 31` instead of false with `c = def`. -/
theorem C15_prefix_counterexample :
    ¬ IsHexString "0x1F" ∧ hexStringToColor "0x1F" 0x0000FF = (true, 31) := by
  decide

/-- C15, amended: `hexStringToColor(s, c, def)` sets `c` to `def` whenever it returns
false; for every non-empty sequence of hexadecimal digits it returns true and sets `c`
to the low 32 bits of the numeric value (saturated at `ULLONG_MAX`), which is the numeric
value itself for at most eight digits; and for every non-empty string without a NUL
character it returns true exactly when the string has the form that `strtoull` reads
completely: optional white space, an optional sign, an optional `0x` or `0X`, and at
least one hexadecimal digit. -/
theorem C15_hexStringToColor_accepts (s : String) (deflt : Nat) :
    ((hexStringToColor s deflt).1 = false → (hexStringToColor s deflt).2 = deflt) ∧
    (IsHexString s →
      hexStringToColor s deflt = (true, min (hexValue s.toList) ullongMax % 4294967296)) ∧
    (IsHexString s → s.toList.length ≤ 8 →
      hexStringToColor s deflt = (true, hexValue s.toList)) ∧
    (s.toList ≠ [] → (∀ ch ∈ s.toList, ch.toNat ≠ 0) →
      ((hexStringToColor s deflt).1 = true ↔ StrtoullForm s.toList)) := by
  have hex : IsHexString s →
      hexStringToColor s deflt = (true, min (hexValue s.toList) ullongMax % 4294967296) := by
    rintro ⟨hne, hall⟩
    have hc : cStr s = s.toList :=
      cStr_of_no_nul s (fun ch hch => (hexDigit_facts ch (hall ch hch)).2.2.2.2.2)
    unfold hexStringToColor
    simp only []
    rw [hc, strtoull16_hex s.toList hne hall]
    simp
  refine ⟨?_, hex, ?_, ?_⟩
  · unfold hexStringToColor
    simp only []
    split
    · intro h; exact absurd h (by simp)
    · intro _; rfl
  · intro h hlen
    rw [hex h]
    have h1 := hexValue_lt s.toList hlen
    have h2 : min (hexValue s.toList) ullongMax = hexValue s.toList := by
      unfold ullongMax; omega
    rw [h2, Nat.mod_eq_of_lt h1]
  · intro hne hnul
    have hc : cStr s = s.toList := cStr_of_no_nul s hnul
    have hflag : (hexStringToColor s deflt).1 = true ↔ (strtoull16 s.toList).2 = [] := by
      unfold hexStringToColor
      simp only []
      rw [hc]
      split
      · rename_i h; exact ⟨fun _ => h, fun _ => rfl⟩
      · rename_i h; exact ⟨fun h1 => absurd h1 (by simp), fun h1 => absurd h1 h⟩
    rw [hflag]
    generalize s.toList = l at hne
    constructor
    · intro hep
      obtain ⟨sg, hsg, hsgc⟩ := skipSign_split (l.dropWhile isSpaceC)
      obtain ⟨px, hpx, hpxc⟩ := skipHexPrefix_split (skipSign (l.dropWhile isSpaceC))
      unfold strtoull16 at hep
      simp only [] at hep
      generalize hw : skipHexPrefix (skipSign (l.dropWhile isSpaceC)) = w at hep hpx
      cases w with
      | nil => exact absurd hep hne
      | cons d r =>
        simp only [] at hep
        by_cases hd : isHexDigit d = true
        · rw [if_pos hd] at hep
          simp only [] at hep
          obtain ⟨dg, hdg, hdgall⟩ := scanHex_split (d :: r) 0
          rw [hep, List.append_nil] at hdg
          refine ⟨l.takeWhile isSpaceC, sg, px, d :: r, ?_, ?_, hsgc, hpxc, by simp, ?_⟩
          · rw [← hpx, ← hsg, List.takeWhile_append_dropWhile]
          · intro ch hch
            exact (List.mem_takeWhile_imp hch)
          · rw [hdg]; exact hdgall
        · rw [if_neg hd] at hep
          exact absurd hep hne
    · rintro ⟨sp, sg, px, dg, rfl, hsp, hsgc, hpxc, hdne, hdall⟩
      cases dg with
      | nil => exact absurd rfl hdne
      | cons d r =>
        have hd := hdall d (List.mem_cons_self _ _)
        have hzero : isHexDigit '0' = true := by decide
        have hhead : ∀ c r', px ++ d :: r = c :: r' → isHexDigit c = true := by
          intro c r' he
          rcases hpxc with rfl | rfl | rfl
          · simp at he; rw [← he.1]; exact hd
          · simp at he; rw [← he.1]; exact hzero
          · simp at he; rw [← he.1]; exact hzero
        have hpre : skipHexPrefix (px ++ d :: r) = d :: r := by
          rcases hpxc with rfl | rfl | rfl
          · exact skipHexPrefix_of_hex (d :: r) hdall
          · simp [skipHexPrefix, hd]
          · simp [skipHexPrefix, hd]
        apply strtoull16_of_digits sp (sg ++ (px ++ d :: r)) d r hsp
        · intro c r' he
          rcases hsgc with rfl | rfl | rfl
          · exact (hexDigit_facts c (hhead c r' he)).1
          · simp at he; rw [← he.1]; decide
          · simp at he; rw [← he.1]; decide
        · rcases hsgc with rfl | rfl | rfl
          · cases hx : px ++ d :: r with
            | nil => simp at hx
            | cons c r' =>
              rw [List.nil_append, (skipSign_of_hex c r' (hhead c r' hx)).1, ← hx]
              exact hpre
          · simp only [List.singleton_append, skipSign]
            simp [hpre]
          · simp only [List.singleton_append, skipSign]
            simp [hpre]
        · exact hdall

/-- C15 amended, on the string `0000FF`: it is a hexadecimal string of six digits, and
`hexStringToColor` returns true with the value 255. -/
theorem C15_hexStringToColor_accepts_witness :
    IsHexString "0000FF" ∧
    hexStringToColor "0000FF" 0xFF0000 = (true, hexValue "0000FF".toList) :=
  ⟨by decide,
    (C15_hexStringToColor_accepts "0000FF" 0xFF0000).2.2.1 (by decide) (by decide)⟩

end AnalogSegmentsClock

namespace AnalogSegmentsClock

/-! ## C22: validation is idempotent -/

/-- C22: for every strip length `L >= 0` and every input segment, applying
`Segment::validateAndUpdate` twice against the same `L` yields the same segment
(`firstLed`, `lastLed`, `offset`, `isHours`, `size`) as applying it once. -/
theorem C22_validate_idempotent (L : Nat) (s : Segment) :
    (s.validateAndUpdate L).validateAndUpdate L = s.validateAndUpdate L := by
  by_cases h : s.firstLed < 0 ∨ s.firstLed ≥ (L : Int) ∨ s.lastLed < s.firstLed ∨
      s.lastLed ≥ (L : Int)
  · have e : s.validateAndUpdate L = Segment.default := by
      unfold Segment.validateAndUpdate
      rw [if_pos h]
    rw [e]
    by_cases hL : L = 0
    · subst hL
      rfl
    · have hd : ¬ (Segment.default.firstLed < 0 ∨ Segment.default.firstLed ≥ (L : Int) ∨
          Segment.default.lastLed < Segment.default.firstLed ∨
          Segment.default.lastLed ≥ (L : Int)) := by
        have h1 : Segment.default.firstLed = 0 := rfl
        have h2 : Segment.default.lastLed = 0 := rfl
        rw [h1, h2]
        omega
      unfold Segment.validateAndUpdate
      rw [if_neg hd]
      rfl
  · by_cases h2 : s.offset > toInt16 (s.lastLed - s.firstLed + 1)
    · have e : s.validateAndUpdate L = (⟨s.firstLed, s.lastLed, 0, s.isHours,
          toInt16 (s.lastLed - s.firstLed + 1)⟩ : Segment) := by
        unfold Segment.validateAndUpdate
        rw [if_neg h]
        simp only [Segment.update]
        rw [if_pos h2]
      rw [e]
      unfold Segment.validateAndUpdate
      rw [if_neg h]
      simp only [Segment.update]
      split <;> rfl
    · have e : s.validateAndUpdate L = (⟨s.firstLed, s.lastLed, s.offset, s.isHours,
          toInt16 (s.lastLed - s.firstLed + 1)⟩ : Segment) := by
        unfold Segment.validateAndUpdate
        rw [if_neg h]
        simp only [Segment.update]
        rw [if_neg h2]
      rw [e]
      unfold Segment.validateAndUpdate
      rw [if_neg h]
      simp only [Segment.update]
      rw [if_neg h2]

end AnalogSegmentsClock

namespace AnalogSegmentsClock

/-! ## C21: mapping with an arbitrary offset -/

/-- C21 as stated fails on the one-LED segment `32767..32767` with offset 1 (size 1) at
progress 1: `firstLed + offset + progress - 1` is 32768, which does not fit the
`int16_t led` and becomes -32768; that is not above `lastLed`, so -32768 is returned
instead of `firstLed + ((1 + 1 - 1) mod 1) = 32767`. -/
theorem C21_mapping_int16_counterexample :
    (mkSegment 32767 32767 1).InRange ∧
    (0 ≤ (mkSegment 32767 32767 1).offset ∧
      (mkSegment 32767 32767 1).offset ≤ (mkSegment 32767 32767 1).size) ∧
    (1 : Int) ≤ (mkSegment 32767 32767 1).size ∧
    adjustToSegment 1 (mkSegment 32767 32767 1) = -32768 ∧
    (mkSegment 32767 32767 1).firstLed +
      ((mkSegment 32767 32767 1).offset + 1 - 1) % (mkSegment 32767 32767 1).size = 32767 ∧
    ¬ (mkSegment 32767 32767 1).Covers (adjustToSegment 1 (mkSegment 32767 32767 1)) := by
  decide

/-- C21, amended: for every segment with `0 <= firstLed <= lastLed`,
`size = lastLed - firstLed + 1`, `0 <= offset <= size` and `lastLed + offset <= 32767`,
and every progress `p` with `1 <= p <= size`:
`adjustToSegment(p, segment) == firstLed + ((offset + p - 1) mod size)`, the result lies
in `[firstLed, lastLed]`, and `p -> adjustToSegment(p, segment)` is a bijection from
`{1, ..., size}` onto the LEDs of the segment. -/
theorem C21_circular_mapping (seg : Segment) (hf : 0 ≤ seg.firstLed)
    (hl : seg.firstLed ≤ seg.lastLed) (hs : seg.size = seg.lastLed - seg.firstLed + 1)
    (ho0 : 0 ≤ seg.offset) (ho1 : seg.offset ≤ seg.size)
    (hov : seg.lastLed + seg.offset ≤ 32767) :
    (∀ p : Int, 1 ≤ p → p ≤ seg.size →
      adjustToSegment p seg = seg.firstLed + (seg.offset + p - 1) % seg.size ∧
      seg.Covers (adjustToSegment p seg)) ∧
    (∀ led : Int, seg.Covers led →
      ∃! p : Int, 1 ≤ p ∧ p ≤ seg.size ∧ adjustToSegment p seg = led) := by
  have hadj : ∀ p : Int, 1 ≤ p → p ≤ seg.size →
      adjustToSegment p seg =
        if seg.firstLed + seg.offset + p - 1 > seg.lastLed then
          seg.firstLed + seg.offset + p - 1 - seg.lastLed - 1 + seg.firstLed
        else seg.firstLed + seg.offset + p - 1 :=
    fun p hp1 hp2 => adjustToSegment_eq seg p hf hl (by omega) (by omega)
  constructor
  · intro p hp1 hp2
    rw [hadj p hp1 hp2]
    unfold Segment.Covers
    by_cases h : seg.firstLed + seg.offset + p - 1 > seg.lastLed
    · rw [if_pos h, emod_wrap_once _ _ (by omega) (by omega)]
      omega
    · rw [if_neg h, emod_below _ _ (by omega) (by omega)]
      omega
  · rintro led ⟨c1, c2⟩
    by_cases hk : led - seg.firstLed ≥ seg.offset
    · refine ⟨led - seg.firstLed - seg.offset + 1, ⟨by omega, by omega, ?_⟩, ?_⟩
      · rw [hadj _ (by omega) (by omega), if_neg (by omega)]
        omega
      · rintro q ⟨q1, q2, q3⟩
        rw [hadj q q1 q2] at q3
        split at q3 <;> omega
    · refine ⟨led - seg.firstLed - seg.offset + seg.size + 1, ⟨by omega, by omega, ?_⟩, ?_⟩
      · rw [hadj _ (by omega) (by omega), if_pos (by omega)]
        omega
      · rintro q ⟨q1, q2, q3⟩
        rw [hadj q q1 q2] at q3
        split at q3 <;> omega

/-- C21 amended, on the segment `9..13` with offset 3: progress 4 is mapped to
`9 + ((3 + 4 - 1) mod 5) = 10`, inside the segment. -/
theorem C21_circular_mapping_witness :
    adjustToSegment 4 (mkSegment 9 13 3) =
      (mkSegment 9 13 3).firstLed +
        ((mkSegment 9 13 3).offset + 4 - 1) % (mkSegment 9 13 3).size ∧
    (mkSegment 9 13 3).Covers (adjustToSegment 4 (mkSegment 9 13 3)) :=
  (C21_circular_mapping (mkSegment 9 13 3) (by decide) (by decide) (by decide) (by decide)
    (by decide) (by decide)).1 4 (by decide) (by decide)

end AnalogSegmentsClock

namespace AnalogSegmentsClock

/-! ## C23: the colour round trip -/

theorem upperHexChar_facts (d : Nat) (hd : d < 16) :
    hexDigitValue (upperHexChar d) = some d ∧ isUpperHexDigit (upperHexChar d) = true ∧
    isHexDigit (upperHexChar d) = true := by
  interval_cases d <;> decide

theorem upperHexDigits_acc (fuel n : Nat) (ds : List Char) :
    upperHexDigits fuel n ds = upperHexDigits fuel n [] ++ ds := by
  induction fuel generalizing n ds with
  | zero => rfl
  | succ fuel ih =>
    unfold upperHexDigits
    by_cases h : n / 16 = 0
    · rw [if_pos h, if_pos h]; rfl
    · rw [if_neg h, if_neg h, ih (n / 16) (upperHexChar (n % 16) :: ds),
        ih (n / 16) [upperHexChar (n % 16)], List.append_assoc]
      rfl

theorem upperHexDigits_step (fuel n : Nat) :
    upperHexDigits (fuel + 1) n [] =
      if n / 16 = 0 then [upperHexChar (n % 16)]
      else upperHexDigits fuel (n / 16) [] ++ [upperHexChar (n % 16)] := by
  show (if n / 16 = 0 then upperHexChar (n % 16) :: []
    else upperHexDigits fuel (n / 16) (upperHexChar (n % 16) :: [])) = _
  by_cases h : n / 16 = 0
  · rw [if_pos h, if_pos h]
  · rw [if_neg h, if_neg h, upperHexDigits_acc]

theorem hexValue_snoc (xs : List Char) (ch : Char) :
    hexValue (xs ++ [ch]) = hexValue xs * 16 + (hexDigitValue ch).getD 0 := by
  unfold hexValue
  rw [List.foldl_append]
  rfl

theorem hexValue_upperHexDigits (fuel n : Nat) (hn : n < 16 ^ fuel) :
    hexValue (upperHexDigits fuel n []) = n := by
  induction fuel generalizing n with
  | zero =>
    have : n = 0 := by simpa using hn
    subst this
    rfl
  | succ fuel ih =>
    rw [upperHexDigits_step]
    have hmod : n % 16 < 16 := Nat.mod_lt _ (by decide)
    have hv := (upperHexChar_facts (n % 16) hmod).1
    by_cases h : n / 16 = 0
    · rw [if_pos h]
      have e := hexValue_snoc [] (upperHexChar (n % 16))
      rw [List.nil_append] at e
      rw [e, hv]
      show 0 * 16 + n % 16 = n
      omega
    · rw [if_neg h, hexValue_snoc, hv, ih (n / 16) (by
        rw [pow_succ] at hn
        exact Nat.div_lt_of_lt_mul (by omega))]
      show n / 16 * 16 + n % 16 = n
      omega

theorem upperHexDigits_all (fuel n : Nat) :
    ∀ ch ∈ upperHexDigits fuel n [], isUpperHexDigit ch = true ∧ isHexDigit ch = true := by
  induction fuel generalizing n with
  | zero => intro ch hch; simp [upperHexDigits] at hch
  | succ fuel ih =>
    have hmod : n % 16 < 16 := Nat.mod_lt _ (by decide)
    have hv := (upperHexChar_facts (n % 16) hmod).2
    rw [upperHexDigits_step]
    intro ch hch
    by_cases h : n / 16 = 0
    · rw [if_pos h, List.mem_singleton] at hch
      rw [hch]; exact hv
    · rw [if_neg h, List.mem_append, List.mem_singleton] at hch
      rcases hch with hch | hch
      · exact ih (n / 16) ch hch
      · rw [hch]; exact hv

theorem upperHexDigits_length (fuel n k : Nat) (hk : 1 ≤ k) (hn : n < 16 ^ k) :
    (upperHexDigits fuel n []).length ≤ k ∧ (upperHexDigits fuel n []).length ≤ fuel := by
  induction fuel generalizing n k with
  | zero => exact ⟨Nat.zero_le _, le_refl _⟩
  | succ fuel ih =>
    rw [upperHexDigits_step]
    by_cases h : n / 16 = 0
    · rw [if_pos h]
      exact ⟨hk, by simp⟩
    · rw [if_neg h, List.length_append, List.length_singleton]
      have hk2 : 2 ≤ k := by
        by_contra hc
        have : k = 1 := by omega
        subst this
        have : n < 16 := by simpa using hn
        exact h (Nat.div_eq_of_lt this)
      obtain ⟨j, rfl⟩ : ∃ j, k = j + 1 := ⟨k - 1, by omega⟩
      have hdiv : n / 16 < 16 ^ j := by
        rw [pow_succ] at hn
        exact Nat.div_lt_of_lt_mul (by omega)
      have := ih (n / 16) j (by omega) hdiv
      omega

theorem hexValue_zeros (k : Nat) (l : List Char) :
    hexValue (List.replicate k '0' ++ l) = hexValue l := by
  unfold hexValue
  rw [List.foldl_append]
  congr 1
  induction k with
  | zero => rfl
  | succ k ih =>
    rw [List.replicate_succ, List.foldl_cons]
    exact ih

theorem sprintf06X_facts (c : Nat) (hc : c < 4294967296) :
    sprintf06X c ≠ [] ∧ (sprintf06X c).length ≤ 8 ∧ 6 ≤ (sprintf06X c).length ∧
    (c ≤ 0xFFFFFF → (sprintf06X c).length = 6) ∧
    (∀ ch ∈ sprintf06X c, isUpperHexDigit ch = true ∧ isHexDigit ch = true) ∧
    hexValue (sprintf06X c) = c := by
  have h8 : c < 16 ^ 8 := by
    have : (16 : Nat) ^ 8 = 4294967296 := by norm_num
    omega
  have hlen := (upperHexDigits_length 8 c 8 (by decide) h8).1
  have hlen6 : c ≤ 0xFFFFFF → (upperHexDigits 8 c []).length ≤ 6 := by
    intro h
    have h6 : c < 16 ^ 6 := by
      have : (16 : Nat) ^ 6 = 16777216 := by norm_num
      omega
    exact (upperHexDigits_length 8 c 6 (by decide) h6).1
  have hl : (sprintf06X c).length =
      (6 - (upperHexDigits 8 c []).length) + (upperHexDigits 8 c []).length := by
    unfold sprintf06X
    rw [List.length_append, List.length_replicate]
  refine ⟨?_, by omega, by omega, fun h => by have := hlen6 h; omega, ?_, ?_⟩
  · intro he
    rw [he] at hl
    simp at hl
    omega
  · intro ch hch
    unfold sprintf06X at hch
    rcases List.mem_append.1 hch with h | h
    · rw [(List.mem_replicate.1 h).2]
      decide
    · exact upperHexDigits_all 8 c ch h
  · unfold sprintf06X
    rw [hexValue_zeros, hexValue_upperHexDigits 8 c h8]

theorem hexStringToColor_of_hex (s : String) (deflt : Nat) (h : IsHexString s)
    (hlen : s.toList.length ≤ 8) : hexStringToColor s deflt = (true, hexValue s.toList) := by
  obtain ⟨hne, hall⟩ := h
  have hc : cStr s = s.toList :=
    cStr_of_no_nul s (fun ch hch => (hexDigit_facts ch (hall ch hch)).2.2.2.2.2)
  have h1 := hexValue_lt s.toList hlen
  have h2 : min (hexValue s.toList) ullongMax = hexValue s.toList := by
    unfold ullongMax; omega
  unfold hexStringToColor
  simp only []
  rw [hc, strtoull16_hex s.toList hne hall, h2]
  simp only [if_true]
  rw [Nat.mod_eq_of_lt h1]

/-- C23: for every 32-bit colour `c`, `hexStringToColor(colorToHexString(c), out, def)`
returns true and sets `out == c`, whatever `def` is; and for every `c <= 0xFFFFFF`
`colorToHexString(c)` is exactly six upper-case hexadecimal digits. -/
theorem C23_colour_round_trip (c deflt : Nat) (hc : c < 4294967296) :
    hexStringToColor (colorToHexString c) deflt = (true, c) ∧
    (c ≤ 0xFFFFFF →
      (colorToHexString c).toList.length = 6 ∧
      ∀ ch ∈ (colorToHexString c).toList, isUpperHexDigit ch = true) := by
  obtain ⟨hne, hl8, -, hl6, hall, hval⟩ := sprintf06X_facts c hc
  have hlist : (colorToHexString c).toList = sprintf06X c := rfl
  constructor
  · have h := hexStringToColor_of_hex (colorToHexString c) deflt
      ⟨by rw [hlist]; exact hne, by rw [hlist]; exact fun ch hch => (hall ch hch).2⟩
      (by rw [hlist]; exact hl8)
    rw [h, hlist, hval]
  · intro h6
    rw [hlist]
    exact ⟨hl6 h6, fun ch hch => (hall ch hch).1⟩

/-- C23 on the default hour colour `0x0000FF`: the string is `0000FF`, and reading it
back gives true and 255. -/
theorem C23_colour_round_trip_witness :
    colorToHexString 0x0000FF = "0000FF" ∧
    hexStringToColor (colorToHexString 0x0000FF) 0xFF0000 = (true, 0x0000FF) ∧
    (colorToHexString 0x0000FF).toList.length = 6 :=
  ⟨by decide, (C23_colour_round_trip 0x0000FF 0xFF0000 (by decide)).1,
    ((C23_colour_round_trip 0x0000FF 0xFF0000 (by decide)).2 (by decide)).1⟩

end AnalogSegmentsClock
